import Mathlib

/-!
Verification development for the nanotar tar codec (src/dist/index.cjs).

Modelling conventions (shallow embedding):
* Byte buffers are lists of natural numbers (one element per byte).
* JS strings are modelled by their UTF-8 byte sequences, as lists of
  naturals.  For valid UTF-8 input, TextEncoder/TextDecoder round-trip, so
  working at the byte level is faithful; the separator and slash tests used
  by the code (bytes 10, 32, 47, 61, 0) are all self-synchronising in UTF-8.
* Machine numbers are naturals.  A JS NaN result of Number.parseInt is
  modelled as Option.none; the code under scrutiny never produces negative
  parses on the inputs any claim touches, and the sign handling of parseInt
  is therefore not modelled.
* JS typed-array views that would throw a RangeError when out of bounds are
  modelled by truncating reads; no claim exercises an out-of-range slice.
* Fallible parses return Option.
-/

set_option maxRecDepth 8000

namespace Nanotar

/-- Byte strings: JS strings are identified with their UTF-8 byte lists. -/
abbrev Str := List Nat

/-- Bytes of an ASCII string literal (for ASCII, code points equal UTF-8 bytes). -/
def ascii (s : String) : Str := s.data.map Char.toNat

/-- JS whitespace (the ASCII part), as skipped by parseInt and trimmed by trim. -/
def isJsSpace (b : Nat) : Bool := b = 32 || b = 9 || b = 10 || b = 11 || b = 12 || b = 13

/-- ASCII decimal digit. -/
def isDecDigit (b : Nat) : Bool := 48 ≤ b && b ≤ 57

/-- ASCII octal digit. -/
def isOctDigit (b : Nat) : Bool := 48 ≤ b && b ≤ 55

/-- Value of a big-endian digit string in the given base. -/
def digitsVal (base : Nat) (ds : Str) : Nat := ds.foldl (fun a d => a * base + (d - 48)) 0

/-- JS Number.parseInt(str) with the radix argument omitted (radix 10):
skip leading whitespace, read the longest prefix of decimal digits, NaN
(modelled none) when there is none.  Signs and the 0x prefix never occur in
the fields the code reads and are not modelled. -/
def parseIntDec (s : Str) : Option Nat :=
  let ds := (s.dropWhile isJsSpace).takeWhile isDecDigit
  if ds = [] then none else some (digitsVal 10 ds)

/-- JS Number.parseInt(str, 8): as above with octal digits. -/
def parseIntOct (s : Str) : Option Nat :=
  let ds := (s.dropWhile isJsSpace).takeWhile isOctDigit
  if ds = [] then none else some (digitsVal 8 ds)

/-- The raw bytes of the view new Uint8Array(buffer, off, n) (truncated at the
buffer end where JS would throw; no claim reads out of range). -/
def readRaw (buf : Str) (off n : Nat) : Str := (buf.drop off).take n

/-- Source _readString (index.cjs lines 170-175): take the n-byte view and cut
it at the first NUL byte, then decode as text. -/
def _readString (buf : Str) (off n : Nat) : Str :=
  (readRaw buf off n).takeWhile (fun b => b ≠ 0)

/-- Source _readNumber (index.cjs lines 176-183): build a string from all n
bytes (String.fromCodePoint keeps NUL bytes) and Number.parseInt(str, 8). -/
def _readNumber (buf : Str) (off n : Nat) : Option Nat :=
  parseIntOct (readRaw buf off n)

/-- JS String.prototype.trim (the inputs here are ASCII). -/
def jsTrim (s : Str) : Str :=
  ((s.dropWhile isJsSpace).reverse.dropWhile isJsSpace).reverse

/-- JS String.prototype.split with a one-character separator. -/
def splitOnByte (sep : Nat) : Str → List Str
  | [] => [[]]
  | b :: rest =>
    match splitOnByte sep rest with
    | [] => [[]]
    | cur :: out => if b = sep then [] :: cur :: out else (b :: cur) :: out

/-- PAX header maps: association lists of key and (possibly undefined) value.
Later JS assignments and spreads are modelled by consing in front, so lookup
takes the first match. -/
abbrev Headers := List (Str × Option Str)

/-- First-match association lookup (JS property read). -/
def alookup {α : Type} : List (Str × α) → Str → Option α
  | [], _ => none
  | (k2, v) :: rest, k => if k2 = k then some v else alookup rest k

/-- Property read flattening an undefined stored value to undefined. -/
def hgetStr (h : Headers) (k : Str) : Option Str := (alookup h k).bind id

/-- JS truthiness of a string-or-undefined value: the empty string and
undefined are falsy. -/
def jsTruthyStr : Option Str → Bool
  | some (_ :: _) => true
  | _ => false

/-- Source _parseExtendedHeaders (index.cjs lines 184-194): split the payload
on newlines; for each line take element 1 of line.split(" "), split that token
on "=", and assign key = part before the first "=", value = part between the
first and second "=" (undefined when the token has no "="). -/
def _parseExtendedHeaders (data : Str) : Headers :=
  (splitOnByte 10 data).foldl
    (fun acc line =>
      match (splitOnByte 32 line).drop 1 with
      | [] => acc
      | tok :: _ =>
        match splitOnByte 61 tok with
        | [] => acc
        | k :: rest => (k, rest.head?) :: acc)
    []

/-- Source tarItemTypeMap (index.cjs lines 3-50), as a partial map from the
one-character type code to the type name. -/
def tarItemTypeMap (t : Str) : Option Str :=
  if t = ascii "0" then some (ascii "file")
  else if t = ascii "1" then some (ascii "hardLink")
  else if t = ascii "2" then some (ascii "symbolicLink")
  else if t = ascii "3" then some (ascii "characterDevice")
  else if t = ascii "4" then some (ascii "blockDevice")
  else if t = ascii "5" then some (ascii "directory")
  else if t = ascii "6" then some (ascii "fifo")
  else if t = ascii "7" then some (ascii "contiguousFile")
  else if t = ascii "g" then some (ascii "globalExtendedHeader")
  else if t = ascii "x" then some (ascii "extendedHeader")
  else if t = ascii "D" then some (ascii "gnuDirectory")
  else if t = ascii "I" then some (ascii "gnuInodeMetadata")
  else if t = ascii "K" then some (ascii "gnuLongLinkName")
  else if t = ascii "L" then some (ascii "gnuLongFileName")
  else if t = ascii "N" then some (ascii "gnuOldLongFileName")
  else if t = ascii "M" then some (ascii "gnuMultiVolume")
  else if t = ascii "S" then some (ascii "gnuSparseFile")
  else if t = ascii "E" then some (ascii "gnuExtendedSparse")
  else if t = ascii "A" then some (ascii "solarisAcl")
  else if t = ascii "V" then some (ascii "solarisVolumeLabel")
  else if t = ascii "X" then some (ascii "solarisOldExtendedHeader")
  else none

/-- Source lines 75-76: the raw one-byte type string defaults to "0" when it
reads empty, then the map is consulted with unrecognized codes passing
through. -/
def typeOf (raw : Str) : Str :=
  let t := if raw = [] then ascii "0" else raw
  (tarItemTypeMap t).getD t

/-- The resolved type of the header at a given offset (lines 75-76). -/
def headerType (buf : Str) (offset : Nat) : Str :=
  typeOf (_readString buf (offset + 156) 1)

/-- The size field of the header at a given offset (line 72). -/
def headerSize (buf : Str) (offset : Nat) : Option Nat :=
  _readNumber buf (offset + 124) 12

/-- Encoder padded payload length (index.cjs lines 268-271): whole 512-byte
blocks covering the payload. -/
def padLen (size : Nat) : Nat :=
  512 * (size / 512) + (if size % 512 ≠ 0 then 512 else 0)

/-- Source line 73: seek distance from one header to the next. -/
def seekOf (size : Nat) : Nat :=
  512 + 512 * (size / 512) + (if size % 512 ≠ 0 then 512 else 0)

/-- Source lines 63-68: a pending extended header with a truthy path (or else
linkpath) key replaces the raw name. -/
def resolveName (next : Option Headers) (raw : Str) : Str :=
  match next with
  | none => raw
  | some neh =>
    let p := hgetStr neh (ascii "path")
    let ln := if jsTruthyStr p then p else hgetStr neh (ascii "linkpath")
    if jsTruthyStr ln then ln.getD [] else raw

/-- Source lines 111-121: join a non-empty USTAR prefix with the name. -/
def joinName (pfx nm : Str) : Str :=
  if pfx.getLast? = some 47 ∧ nm.head? = some 47 then pfx ++ nm.tail
  else if pfx.getLast? = some 47 ∨ nm.head? = some 47 then pfx ++ nm
  else pfx ++ [47] ++ nm

/-- Source lines 105-122: when the magic field reads exactly "ustar", read the
user and group names and join a non-empty prefix onto the name; otherwise the
name passes through and user and group stay undefined. -/
def ustarAdjust (buf : Str) (offset : Nat) (name : Str) : Str × Option Str × Option Str :=
  if _readString buf (offset + 257) 6 = ascii "ustar" then
    let user := _readString buf (offset + 265) 32
    let group := _readString buf (offset + 297) 32
    let pfx := _readString buf (offset + 345) 155
    (if pfx = [] then name else joinName pfx name, some user, some group)
  else (name, none, none)

/-- JS values stored in a decoded entry attrs object: strings, numbers
(Option.none for NaN) and undefined. -/
inductive JsVal where
  | vstr : Str → JsVal
  | vnum : Option Nat → JsVal
  | vundefined : JsVal
deriving DecidableEq

/-- Extended-header value as stored into the attrs object by a spread. -/
def jsOfOpt : Option Str → JsVal
  | some s => .vstr s
  | none => .vundefined

/-- View of a headers map as attrs entries. -/
def hdrsAttrs (h : Headers) : List (Str × JsVal) :=
  h.map (fun kv => (kv.1, jsOfOpt kv.2))

/-- The six explicit attrs properties of source lines 127-136, written last in
the object literal and therefore taking precedence. -/
def explicitSix (mode : Str) (uid gid mtime : Option Nat) (user group : Option Str) :
    List (Str × JsVal) :=
  [(ascii "mode", .vstr mode), (ascii "uid", .vnum uid), (ascii "gid", .vnum gid),
   (ascii "mtime", .vnum mtime), (ascii "user", jsOfOpt user), (ascii "group", jsOfOpt group)]

/-- Source lines 127-136: attrs is the spread of the global extended header,
then the pending next-entry extended header, then the six explicit fields,
with later spreads overriding.  First-match lookup on this list realises that
precedence. -/
def mkAttrs (global next : Option Headers) (mode : Str) (uid gid mtime : Option Nat)
    (user group : Option Str) : List (Str × JsVal) :=
  explicitSix mode uid gid mtime user group
    ++ hdrsAttrs (next.getD []) ++ hdrsAttrs (global.getD [])

/-- Decoded entry metadata (source lines 123-137). -/
structure TarMeta where
  name : Str
  type : Str
  size : Option Nat
  attrs : List (Str × JsVal)
deriving DecidableEq

/-- Decoded entry: metadata plus the payload slice.  A metaOnly record is
modelled with data none; size none models a NaN size field. -/
structure TarEntry extends TarMeta where
  data : Option Str
deriving DecidableEq

/-- parseTar options (source line 52, 139, 143). -/
structure ParseOpts where
  filter : Option (TarMeta → Bool) := none
  metaOnly : Bool := false

/-- Metadata of the regular entry at the given offset (source lines 59-136). -/
def entryMeta (buf : Str) (offset : Nat) (next global : Option Headers) : TarMeta :=
  let raw := _readString buf offset 100
  let ug := ustarAdjust buf offset (resolveName next raw)
  { name := ug.1
    type := headerType buf offset
    size := headerSize buf offset
    attrs := mkAttrs global next
      (jsTrim (_readString buf (offset + 100) 8))
      (parseIntDec (_readString buf (offset + 108) 8))
      (parseIntDec (_readString buf (offset + 116) 8))
      (_readNumber buf (offset + 136) 12)
      ug.2.1 ug.2.2 }

/-- Source line 148: the payload slice, absent for size zero, and the empty
view when the size field was NaN. -/
def entryData (buf : Str) (offset : Nat) : Option Nat → Option Str
  | some 0 => none
  | some s => some (readRaw buf (offset + 512) s)
  | none => some []

/-- Source lines 139-155: apply the filter, then either a metadata-only record
or the full entry with its payload slice. -/
def emitOf (buf : Str) (opts : ParseOpts) (offset : Nat) (next global : Option Headers) :
    Option TarEntry :=
  let meta := entryMeta buf offset next global
  if (match opts.filter with | none => true | some f => f meta) then
    if opts.metaOnly then some { toTarMeta := meta, data := none }
    else some { toTarMeta := meta, data := entryData buf offset (headerSize buf offset) }
  else none

/-- One iteration of the parseTar loop (source lines 58-157): stop (possibly
emitting a final entry when the size field was NaN, where the JS loop check
fails on the next round), or continue at a new offset with new
extended-header state and an optional emitted entry. -/
inductive StepResult where
  | stop : Option TarEntry → StepResult
  | cont : Nat → Option Headers → Option Headers → Option TarEntry → StepResult
deriving DecidableEq

/-- The body of the parseTar while loop, one header at a time.  The guard is
line 58 (offset < byteLength - 512; for byteLength at most 512 the JS
subtraction is nonpositive and the guard fails, as with truncated Nat
subtraction).  The empty-name stop is lines 60-62; the extended and GNU
continuation branches are lines 77-104; the default branch is lines 105-156. -/
def parseStep (buf : Str) (opts : ParseOpts) (offset : Nat) (next global : Option Headers) :
    StepResult :=
  if offset < buf.length - 512 then
    if _readString buf offset 100 = [] then .stop none
    else
      let type := headerType buf offset
      if type = ascii "extendedHeader" ∨ type = ascii "globalExtendedHeader" then
        match headerSize buf offset with
        | none => .stop none
        | some size =>
          let headers := _parseExtendedHeaders (readRaw buf (offset + 512) size)
          if type = ascii "extendedHeader" then
            .cont (offset + seekOf size) (some headers) global none
          else
            .cont (offset + seekOf size) none (some (headers ++ global.getD [])) none
      else if type = ascii "gnuLongFileName" ∨ type = ascii "gnuOldLongFileName" ∨
          type = ascii "gnuLongLinkName" then
        match headerSize buf offset with
        | none => .stop none
        | some size =>
          .cont (offset + seekOf size)
            (some [(ascii "path", some (_readString buf (offset + 512) size))]) global none
      else
        match headerSize buf offset with
        | none => .stop (emitOf buf opts offset next global)
        | some size => .cont (offset + seekOf size) none global (emitOf buf opts offset next global)
  else .stop none

/-- The parseTar loop.  Fuel only bounds the iteration count; every continuing
step advances the offset by at least 512 while the guard needs the offset
below the buffer length, so the initial fuel of length + 1 is never
exhausted. -/
def parseTarLoop (buf : Str) (opts : ParseOpts) :
    Nat → Nat → Option Headers → Option Headers → List TarEntry → List TarEntry
  | 0, _, _, _, acc => acc
  | fuel + 1, offset, next, global, acc =>
    match parseStep buf opts offset next global with
    | .stop e => acc ++ e.toList
    | .cont off2 n2 g2 e => parseTarLoop buf opts fuel off2 n2 g2 (acc ++ e.toList)

/-- Source parseTar (index.cjs lines 52-159). -/
def parseTar (buf : Str) (opts : ParseOpts) : List TarEntry :=
  parseTarLoop buf opts (buf.length + 1) 0 none none []

/-! ## Encoder (createTar, index.cjs lines 196-312) -/

/-- Entry or archive-wide attribute overrides for the encoder (the TarFileAttrs
shape read at lines 222-254).  The mode is a string, uid, gid and mtime are
numbers (mtime in milliseconds), user and group are strings. -/
structure CreateAttrs where
  mode : Option Str := none
  uid : Option Nat := none
  gid : Option Nat := none
  mtime : Option Nat := none
  user : Option Str := none
  group : Option Str := none
deriving DecidableEq

/-- Encoder input entry.  _normalizeData (lines 301-312) maps strings to their
UTF-8 bytes and null or undefined to absent, so in the byte model the payload
is already an optional byte list. -/
structure InFile where
  name : Str
  data : Option Str := none
  attrs : Option CreateAttrs := none
deriving DecidableEq

/-- createTar options (line 196): archive-wide default attrs. -/
structure CreateOpts where
  attrs : Option CreateAttrs := none
deriving DecidableEq

/-- The chain file.attrs?.f ?? opts.attrs?.f used at lines 222-254. -/
def rattr {α : Type} (fattrs oattrs : Option CreateAttrs) (f : CreateAttrs → Option α) :
    Option α :=
  (fattrs.bind f).orElse (fun _ => oattrs.bind f)

/-- Line 222: resolved mode string. -/
def modeOf (fattrs : Option CreateAttrs) (opts : CreateOpts) (isDir : Bool) : Str :=
  (rattr fattrs opts.attrs CreateAttrs.mode).getD (if isDir then ascii "775" else ascii "664")

/-- Line 224: resolved uid. -/
def uidOf (fattrs : Option CreateAttrs) (opts : CreateOpts) : Nat :=
  (rattr fattrs opts.attrs CreateAttrs.uid).getD 1000

/-- Line 226: resolved gid. -/
def gidOf (fattrs : Option CreateAttrs) (opts : CreateOpts) : Nat :=
  (rattr fattrs opts.attrs CreateAttrs.gid).getD 1000

/-- Line 229: resolved mtime in milliseconds, falling back to the clock. -/
def mtimeOf (fattrs : Option CreateAttrs) (opts : CreateOpts) (now : Nat) : Nat :=
  (rattr fattrs opts.attrs CreateAttrs.mtime).getD now

/-- Line 252: resolved user name. -/
def userOf (fattrs : Option CreateAttrs) (opts : CreateOpts) : Str :=
  (rattr fattrs opts.attrs CreateAttrs.user).getD []

/-- Line 254: resolved group name. -/
def groupOf (fattrs : Option CreateAttrs) (opts : CreateOpts) : Str :=
  (rattr fattrs opts.attrs CreateAttrs.group).getD []

/-- Source _writeString (lines 290-297) restricted to one field: encode the
string into the w-byte window, truncating at the window end, and zero-fill the
rest.  TextEncoder.encodeInto truncates at a code-point boundary; the byte
model truncates at the exact byte, which agrees whenever the string fits,
as it does for every claim. -/
def fieldFit (w : Nat) (s : Str) : Str :=
  s.take w ++ List.replicate (w - s.length) 0

/-- Source _leftPad (lines 298-300): String.prototype.padStart with "0". -/
def _leftPad (s : Str) (w : Nat) : Str :=
  List.replicate (w - s.length) 48 ++ s

/-- Octal digit bytes of n, most significant first (n.toString(8)); the fuel
dominates the recursion depth. -/
def natToOctalAux : Nat → Nat → Str
  | 0, _ => []
  | fuel + 1, n => if n = 0 then [] else natToOctalAux fuel (n / 8) ++ [n % 8 + 48]

/-- JS n.toString(8) for a natural number. -/
def natToOctal (n : Nat) : Str :=
  if n = 0 then [48] else natToOctalAux n n

/-- _leftPad(n.toString(8), w), the shape of every numeric header field. -/
def octField (n w : Nat) : Str := _leftPad (natToOctal n) w

/-- The eight space bytes written into the checksum field before summing
(line 256). -/
def spaces8 : Str := List.replicate 8 32

/-- Header bytes 0-147: name (offset 0, 100 bytes, line 221), mode (offset
100, 8 bytes, line 223), uid (offset 108, line 225), gid (offset 116, line
227), size (offset 124, 12 bytes, line 228), mtime (offset 136, 12 bytes,
lines 230-235).  The field strings arrive already left-padded. -/
def hdrHead (name modeS uidS gidS sizeS mtimeS : Str) : Str :=
  fieldFit 100 name ++ fieldFit 8 modeS ++ fieldFit 8 uidS ++ fieldFit 8 gidS ++
    fieldFit 12 sizeS ++ fieldFit 12 mtimeS

/-- Header bytes 156-511: type (offset 156, line 237), link name (offset 157,
100 bytes, never written), magic "ustar" (offset 257, 6 bytes, line 240) and
version "00" (offset 263, line 247), user (offset 265, 32 bytes, line 253),
group (offset 297, line 255), then device numbers, prefix and tail padding
(offsets 329-511), never written. -/
def hdrTail (typeS userS groupS : Str) : Str :=
  fieldFit 1 typeS ++ List.replicate 100 0 ++ fieldFit 6 (ascii "ustar") ++
    fieldFit 2 (ascii "00") ++ fieldFit 32 userS ++ fieldFit 32 groupS ++
    List.replicate 183 0

/-- One 512-byte header as written by createTar (lines 219-262): all fields
into a zeroed block, spaces into the checksum field, then the byte sum of the
whole block written as an octal string over the checksum field (offset 148,
8 bytes). -/
def makeHeader (name : Str) (isDir : Bool) (size : Nat) (fattrs : Option CreateAttrs)
    (opts : CreateOpts) (now : Nat) : Str :=
  let hh := hdrHead name (_leftPad (modeOf fattrs opts isDir) 7)
    (octField (uidOf fattrs opts) 7) (octField (gidOf fattrs opts) 7)
    (octField size 11) (octField (mtimeOf fattrs opts now / 1000) 11)
  let ht := hdrTail (if isDir then [53] else [48]) (userOf fattrs opts) (groupOf fattrs opts)
  hh ++ fieldFit 8 (natToOctal (hh ++ spaces8 ++ ht).sum) ++ ht

/-- Normalized payload size (line 202: data?.length || 0). -/
def fsize (f : InFile) : Nat := (f.data.map List.length).getD 0

/-- The bytes one entry contributes to the archive: its header, then for a
file the payload followed by zero padding to a 512-byte boundary (lines
263-273; the padding is the untouched zero-initialised buffer). -/
def entryBlock (f : InFile) (opts : CreateOpts) (now : Nat) : Str :=
  makeHeader f.name f.data.isNone (fsize f) f.attrs opts now ++
    (match f.data with
     | none => []
     | some d => d ++ List.replicate (padLen d.length - d.length) 0)

/-- Lines 205-212: total size of all entry blocks. -/
def tarDataSize (files : List InFile) : Nat :=
  (files.map (fun f => seekOf (fsize f))).sum

/-- Lines 213-216: the buffer size, the data size rounded up to a multiple of
10240. -/
def bufSize (tds : Nat) : Nat :=
  10240 * (tds / 10240) + (if tds % 10240 ≠ 0 then 10240 else 0)

/-- Source createTar (lines 196-276): lay the entry blocks out back to back in
a zero-initialised buffer of the rounded size; the remainder stays zero. -/
def createTar (files : List InFile) (opts : CreateOpts) (now : Nat) : Str :=
  (files.map (fun f => entryBlock f opts now)).flatten ++
    List.replicate (bufSize (tarDataSize files) - tarDataSize files) 0

/-- The header bytes with the checksum field (offset 148, 8 bytes) blanked to
eight ASCII spaces, the configuration over which the checksum is defined. -/
def blankChecksum (h : Str) : Str := h.take 148 ++ spaces8 ++ h.drop 156

/-- The entry parseTar recovers from an entryBlock written by createTar with
no extended-header state: the name, the derived type code, the parsed size
and payload, and the attrs read back from the individual fields. -/
def expectedEntry (f : InFile) (opts : CreateOpts) (now : Nat) : TarEntry :=
  let isDir := f.data.isNone
  { name := (fieldFit 100 f.name).takeWhile (fun b => b ≠ 0)
    type := if isDir then ascii "directory" else ascii "file"
    size := some (fsize f)
    attrs := mkAttrs none none
      (jsTrim (_readString (fieldFit 8 (_leftPad (modeOf f.attrs opts isDir) 7)) 0 8))
      (parseIntDec (_readString (fieldFit 8 (octField (uidOf f.attrs opts) 7)) 0 8))
      (parseIntDec (_readString (fieldFit 8 (octField (gidOf f.attrs opts) 7)) 0 8))
      (_readNumber (fieldFit 12 (octField (mtimeOf f.attrs opts now / 1000) 11)) 0 12)
      (some (_readString (fieldFit 32 (userOf f.attrs opts)) 0 32))
      (some (_readString (fieldFit 32 (groupOf f.attrs opts)) 0 32))
    data := match f.data with
      | none => none
      | some d => if d.length = 0 then none else some d }

/-! ## Basic facts about the byte-level primitives -/

@[simp]
theorem length_fieldFit (w : Nat) (s : Str) : (fieldFit w s).length = w := by
  simp only [fieldFit, List.length_append, List.length_take, List.length_replicate]
  omega

@[simp]
theorem length_spaces8 : spaces8.length = 8 := rfl

theorem fieldFit_of_le {w : Nat} {s : Str} (h : s.length ≤ w) :
    fieldFit w s = s ++ List.replicate (w - s.length) 0 := by
  simp [fieldFit, List.take_of_length_le h]

@[simp]
theorem length_hdrHead (a b c d e f : Str) : (hdrHead a b c d e f).length = 148 := by
  simp [hdrHead]

@[simp]
theorem length_hdrTail (a b c : Str) : (hdrTail a b c).length = 356 := by
  simp only [hdrTail, List.length_append, length_fieldFit, List.length_replicate]

@[simp]
theorem length_makeHeader (name : Str) (isDir : Bool) (size : Nat)
    (fattrs : Option CreateAttrs) (opts : CreateOpts) (now : Nat) :
    (makeHeader name isDir size fattrs opts now).length = 512 := by
  simp [makeHeader]

theorem padLen_ge (s : Nat) : s ≤ padLen s := by
  unfold padLen
  rcases Nat.eq_zero_or_pos (s % 512) with h | h
  · simp [h]; omega
  · have := Nat.div_add_mod s 512
    have h2 : s % 512 < 512 := Nat.mod_lt _ (by omega)
    simp only [if_pos (by omega : s % 512 ≠ 0)]
    omega

theorem seekOf_eq (s : Nat) : seekOf s = 512 + padLen s := by
  unfold seekOf padLen; omega

theorem seekOf_ge (s : Nat) : 512 ≤ seekOf s := by
  rw [seekOf_eq]; omega

theorem seekOf_pos_payload {s : Nat} (h : 0 < s) : 1024 ≤ seekOf s := by
  unfold seekOf
  rcases Nat.eq_zero_or_pos (s % 512) with h2 | h2
  · have := Nat.div_add_mod s 512
    have h3 : 0 < s / 512 := by
      rcases Nat.eq_zero_or_pos (s / 512) with h4 | h4
      · omega
      · exact h4
    simp only [h2, if_neg (by omega : ¬(0 ≠ 0))]
    omega
  · simp only [if_pos (by omega : s % 512 ≠ 0)]
    omega

theorem dvd_seekOf (s : Nat) : 512 ∣ seekOf s := by
  unfold seekOf
  rcases Nat.eq_zero_or_pos (s % 512) with h | h
  · simp only [h, if_neg (by omega : ¬(0 ≠ 0))]
    exact ⟨1 + s / 512, by ring⟩
  · simp only [if_pos (by omega : s % 512 ≠ 0)]
    exact ⟨1 + s / 512 + 1, by ring⟩

@[simp]
theorem length_entryBlock (f : InFile) (opts : CreateOpts) (now : Nat) :
    (entryBlock f opts now).length = seekOf (fsize f) := by
  unfold entryBlock
  cases hd : f.data with
  | none => simp [hd, fsize, seekOf_eq, padLen]
  | some d =>
    have h := padLen_ge d.length
    simp [hd, fsize, seekOf_eq]
    omega

/-! ## Reading fields back out of a buffer -/

theorem readRaw_append_right (p l : Str) (k n : Nat) :
    readRaw (p ++ l) (p.length + k) n = readRaw l k n := by
  unfold readRaw
  rw [← List.drop_drop, List.drop_left]

theorem readRaw_start {x : Str} (y : Str) {n : Nat} (h : x.length = n) :
    readRaw (x ++ y) 0 n = x := by
  unfold readRaw
  rw [List.drop_zero, List.take_left' h]

/-- Reading a field that sits at offset o with n bytes, with x the bytes
before it. -/
theorem readRaw_mid {x : Str} {y : Str} (z : Str) {o n : Nat}
    (hx : x.length = o) (hy : y.length = n) :
    readRaw (x ++ y ++ z) o n = y := by
  unfold readRaw
  rw [List.append_assoc, List.drop_left' hx, List.take_left' hy]

theorem readRaw_replicate_mid {x : Str} (z : Str) {o m k n c : Nat}
    (hx : x.length = o) (hk : k + n ≤ m) :
    readRaw (x ++ List.replicate m c ++ z) (o + k) n = List.replicate n c := by
  have h1 : readRaw (x ++ (List.replicate m c ++ z)) (x.length + k) n
      = readRaw (List.replicate m c ++ z) k n := readRaw_append_right ..
  rw [List.append_assoc, ← hx] at *
  rw [h1]
  unfold readRaw
  have hm : List.replicate m c
      = List.replicate k c ++ (List.replicate n c ++ List.replicate (m - k - n) c) := by
    rw [← List.replicate_add, ← List.replicate_add]
    congr 1
    omega
  rw [hm, List.append_assoc, List.drop_left' (List.length_replicate ..), List.append_assoc,
    List.take_left' (List.length_replicate ..)]

theorem takeWhile_of_all_zero {l : Str} (h : ∀ b ∈ l, b = 0) :
    l.takeWhile (fun b => b ≠ 0) = [] := by
  cases l with
  | nil => rfl
  | cons a t =>
    have : a = 0 := h a (List.mem_cons_self a t)
    simp [List.takeWhile_cons, this]

theorem takeWhile_nonzero_append {s t : Str} (hs : ∀ b ∈ s, b ≠ 0)
    (ht : t = [] ∨ t.head? = some 0) :
    (s ++ t).takeWhile (fun b => b ≠ 0) = s := by
  rw [List.takeWhile_append_of_pos (by simpa using hs)]
  rcases ht with h | h
  · simp [h]
  · cases t with
    | nil => simp
    | cons a t2 =>
      simp only [List.head?_cons, Option.some.injEq] at h
      simp [List.takeWhile_cons, h]

/-! ## Octal printing and reparsing -/

theorem natToOctalAux_digits {fuel n : Nat} :
    ∀ b ∈ natToOctalAux fuel n, 48 ≤ b ∧ b ≤ 55 := by
  induction fuel generalizing n with
  | zero => intro b hb; simp [natToOctalAux] at hb
  | succ fuel ih =>
    intro b hb
    unfold natToOctalAux at hb
    by_cases h : n = 0
    · simp [h] at hb
    · rw [if_neg h] at hb
      rcases List.mem_append.mp hb with h2 | h2
      · exact ih _ h2
      · have h3 : b = n % 8 + 48 := by simpa using h2
        have h4 : n % 8 < 8 := Nat.mod_lt _ (by omega)
        omega

theorem natToOctal_digits {n : Nat} : ∀ b ∈ natToOctal n, 48 ≤ b ∧ b ≤ 55 := by
  unfold natToOctal
  by_cases h : n = 0
  · intro b hb; simp [h] at hb; omega
  · rw [if_neg h]; exact natToOctalAux_digits

theorem natToOctal_ne_nil (n : Nat) : natToOctal n ≠ [] := by
  unfold natToOctal
  by_cases h : n = 0
  · simp [h]
  · rw [if_neg h]
    cases n with
    | zero => omega
    | succ m =>
      unfold natToOctalAux
      rw [if_neg h]
      simp

theorem natToOctalAux_foldl {fuel : Nat} :
    ∀ {n : Nat}, n ≤ fuel → ∀ a : Nat,
      (natToOctalAux fuel n).foldl (fun x d => x * 8 + (d - 48)) a
        = a * 8 ^ (natToOctalAux fuel n).length + n := by
  induction fuel with
  | zero =>
    intro n h a
    have : n = 0 := by omega
    simp [this, natToOctalAux]
  | succ fuel ih =>
    intro n h a
    unfold natToOctalAux
    by_cases h0 : n = 0
    · simp [h0]
    · rw [if_neg h0]
      have hdiv : n / 8 ≤ fuel := by
        have := Nat.div_lt_self (by omega : 0 < n) (by omega : 1 < 8)
        omega
      rw [List.foldl_append, ih hdiv a]
      simp only [List.length_append, List.length_cons, List.length_nil, List.foldl_cons,
        List.foldl_nil]
      have hmod : n % 8 + 48 - 48 = n % 8 := by omega
      rw [hmod, pow_succ]
      have := Nat.div_add_mod n 8
      ring_nf
      omega

theorem digitsVal_natToOctal (n : Nat) : digitsVal 8 (natToOctal n) = n := by
  unfold digitsVal natToOctal
  by_cases h : n = 0
  · simp [h]
  · rw [if_neg h, natToOctalAux_foldl (Nat.le_refl n) 0]
    simp

theorem natToOctalAux_length_le {fuel n k : Nat} (h : n < 8 ^ k) :
    (natToOctalAux fuel n).length ≤ k := by
  induction fuel generalizing n k with
  | zero => simp [natToOctalAux]
  | succ fuel ih =>
    unfold natToOctalAux
    by_cases h0 : n = 0
    · simp [h0]
    · rw [if_neg h0]
      have hk : k ≠ 0 := by
        intro hk0
        rw [hk0] at h
        simp at h
        omega
      obtain ⟨k2, rfl⟩ : ∃ k2, k = k2 + 1 := ⟨k - 1, by omega⟩
      have hdiv : n / 8 < 8 ^ k2 := by
        rw [Nat.div_lt_iff_lt_mul (by omega : 0 < 8)]
        calc n < 8 ^ (k2 + 1) := h
        _ = 8 ^ k2 * 8 := by rw [pow_succ]
      have := ih hdiv
      simp only [List.length_append, List.length_cons, List.length_nil]
      omega

theorem natToOctal_length_le {n k : Nat} (h : n < 8 ^ k) (hk : 1 ≤ k) :
    (natToOctal n).length ≤ k := by
  unfold natToOctal
  by_cases h0 : n = 0
  · simp [h0]; omega
  · rw [if_neg h0]; exact natToOctalAux_length_le h

theorem digitsVal_cons48 (b : Nat) (l : Str) :
    digitsVal b (48 :: l) = digitsVal b l := by
  simp [digitsVal]

theorem digitsVal_replicate48_append (b j : Nat) (l : Str) :
    digitsVal b (List.replicate j 48 ++ l) = digitsVal b l := by
  induction j with
  | zero => simp
  | succ j ih => simpa [List.replicate_succ, digitsVal_cons48] using ih

/-- Parsing an octal rendering padded on the left with ASCII zeros and on the
right with NUL bytes recovers the number. -/
theorem parseIntOct_padded (j n r : Nat) :
    parseIntOct (List.replicate j 48 ++ natToOctal n ++ List.replicate r 0) = some n := by
  simp only [parseIntOct]
  have hdigits : ∀ b ∈ List.replicate j 48 ++ natToOctal n, isOctDigit b = true := by
    intro b hb
    rcases List.mem_append.mp hb with h | h
    · have : b = 48 := List.eq_of_mem_replicate h
      simp [isOctDigit, this]
    · have := natToOctal_digits _ h
      simp [isOctDigit]
      omega
  have hnospace : (List.replicate j 48 ++ natToOctal n ++ List.replicate r 0).dropWhile isJsSpace
      = List.replicate j 48 ++ natToOctal n ++ List.replicate r 0 := by
    rcases j with _ | j2
    · obtain ⟨a, t, hoc⟩ : ∃ a t, natToOctal n = a :: t := by
        cases hoc : natToOctal n with
        | nil => exact absurd hoc (natToOctal_ne_nil n)
        | cons a t => exact ⟨a, t, rfl⟩
      have ha : 48 ≤ a ∧ a ≤ 55 := by
        apply natToOctal_digits a
        rw [hoc]
        exact List.mem_cons_self a t
      simp only [List.replicate_zero, List.nil_append, hoc, List.cons_append]
      rw [List.dropWhile_cons_of_neg]
      simp only [isJsSpace]
      simp only [Bool.or_eq_true, decide_eq_true_eq, not_or]
      omega
    · simp only [List.replicate_succ, List.cons_append]
      rw [List.dropWhile_cons_of_neg]
      simp [isJsSpace]
  have htake : (List.replicate j 48 ++ natToOctal n ++ List.replicate r 0).takeWhile isOctDigit
      = List.replicate j 48 ++ natToOctal n := by
    rw [List.takeWhile_append_of_pos hdigits]
    cases r with
    | zero => simp
    | succ r2 =>
      simp [List.replicate_succ, List.takeWhile_cons, isOctDigit]
  have hne : List.replicate j 48 ++ natToOctal n ≠ [] := by
    intro hcon
    exact natToOctal_ne_nil n (List.append_eq_nil.mp hcon).2
  rw [hnospace, htake, if_neg hne, digitsVal_replicate48_append, digitsVal_natToOctal]

/-- Parsing the size field written by the encoder: 11-digit padded octal in a
12-byte field. -/
theorem parseIntOct_fieldFit {n w k : Nat} (hlen : (natToOctal n).length ≤ k) (hw : k ≤ w) :
    parseIntOct (fieldFit w (octField n k)) = some n := by
  have hl : (octField n k).length = k := by
    simp only [octField, _leftPad, List.length_append, List.length_replicate]
    omega
  rw [fieldFit_of_le (by omega), hl]
  simpa [octField, _leftPad, List.append_assoc] using parseIntOct_padded (k - (natToOctal n).length) n (w - k)

/-! ## Navigating the encoded buffer -/

theorem readRaw_self {l : Str} {n : Nat} (h : l.length = n) : readRaw l 0 n = l := by
  unfold readRaw
  rw [List.drop_zero, ← h, List.take_length]

theorem readRaw_skip {x : Str} (y : Str) {o n : Nat} (h : x.length ≤ o) :
    readRaw (x ++ y) o n = readRaw y (o - x.length) n := by
  rw [show o = x.length + (o - x.length) by omega, readRaw_append_right]
  congr 1
  omega

theorem readRaw_firstfield {x : Str} (y : Str) {n : Nat} (h : x.length = n) :
    readRaw (x ++ y) 0 n = x := readRaw_start y h

theorem readRaw_replicate_field {m c : Nat} (z : Str) {k n : Nat} (h : k + n ≤ m) :
    readRaw (List.replicate m c ++ z) k n = List.replicate n c := by
  have h2 := @readRaw_replicate_mid ([] : Str) z 0 m k n c rfl h
  simpa using h2

theorem readRaw_append_right0 (p l : Str) (n : Nat) :
    readRaw (p ++ l) p.length n = readRaw l 0 n := by
  have := readRaw_append_right p l 0 n
  simpa using this

theorem readString_fieldFit {w : Nat} {s : Str} (hle : s.length ≤ w) (hz : ∀ b ∈ s, b ≠ 0) :
    (fieldFit w s).takeWhile (fun b => b ≠ 0) = s := by
  rw [fieldFit_of_le hle]
  apply takeWhile_nonzero_append hz
  cases h : w - s.length with
  | zero => left; rfl
  | succ m => right; simp [List.replicate_succ]

/-- The conditions on an encoder entry under which its block parses as one
entry: the name field reads back nonempty, and the payload is small enough
for the 12-byte octal size field. -/
def goodFile (f : InFile) : Prop :=
  (fieldFit 100 f.name).takeWhile (fun b => b ≠ 0) ≠ [] ∧ fsize f < 8 ^ 11

/-- A NUL-free name of at most 100 bytes reads back unchanged. -/
theorem nameField_of_clean {f : InFile} (h2 : f.name.length ≤ 100)
    (h3 : ∀ b ∈ f.name, b ≠ 0) :
    (fieldFit 100 f.name).takeWhile (fun b => b ≠ 0) = f.name :=
  readString_fieldFit h2 h3

theorem parseStep_stop_of_short (buf : Str) (opts : ParseOpts) (offset : Nat)
    (next global : Option Headers) (h : buf.length ≤ offset + 512) :
    parseStep buf opts offset next global = .stop none := by
  simp only [parseStep]
  rw [if_neg]
  omega

theorem parseStep_stop_of_zeros (buf : Str) (opts : ParseOpts) (offset : Nat)
    (next global : Option Headers) (hguard : offset < buf.length - 512)
    (hzero : _readString buf offset 100 = []) :
    parseStep buf opts offset next global = .stop none := by
  simp only [parseStep]
  rw [if_pos hguard, if_pos hzero]

section BlockParsing

set_option maxRecDepth 8000

/-- Parsing one encoder-written entry block: from the start of the block the
step decodes exactly the expected entry and moves the cursor one seek
forward, with no extended-header state created. -/
theorem parseStep_entryBlock (pre rest : Str) (f : InFile) (opts2 : CreateOpts) (now : Nat)
    (hgood : goodFile f) (hlen : 512 < (entryBlock f opts2 now ++ rest).length) :
    parseStep (pre ++ (entryBlock f opts2 now ++ rest)) ⟨none, false⟩ pre.length none none
      = .cont (pre.length + seekOf (fsize f)) none none (some (expectedEntry f opts2 now)) := by
  obtain ⟨hn1, hn4⟩ := hgood
  set B := pre ++ (entryBlock f opts2 now ++ rest) with hBdef
  have hguard : pre.length < B.length - 512 := by
    rw [hBdef]
    simp only [List.length_append] at hlen ⊢
    omega
  have r0 : readRaw B pre.length 100 = fieldFit 100 f.name := by
    have h0 : readRaw B (pre.length + 0) 100 = fieldFit 100 f.name := by
      rw [hBdef]
      simp [entryBlock, makeHeader, hdrHead, hdrTail, List.append_assoc,
        readRaw_append_right, readRaw_skip, readRaw_firstfield, readRaw_replicate_field,
        -List.reduceReplicate]
    simpa using h0
  have rname : _readString B pre.length 100
      = (fieldFit 100 f.name).takeWhile (fun b => b ≠ 0) := by
    unfold _readString
    rw [r0]
  have r156 : readRaw B (pre.length + 156) 1
      = fieldFit 1 (if f.data.isNone then [53] else [48]) := by
    rw [hBdef]
    simp [entryBlock, makeHeader, hdrHead, hdrTail, List.append_assoc,
      readRaw_append_right, readRaw_skip, readRaw_firstfield, readRaw_replicate_field,
      -List.reduceReplicate]
  have htype : headerType B pre.length
      = (if f.data.isNone then ascii "directory" else ascii "file") := by
    unfold headerType _readString
    rw [r156]
    cases hb : f.data.isNone <;> simp [hb] <;> decide
  have r124 : readRaw B (pre.length + 124) 12 = fieldFit 12 (octField (fsize f) 11) := by
    rw [hBdef]
    simp [entryBlock, makeHeader, hdrHead, hdrTail, List.append_assoc,
      readRaw_append_right, readRaw_skip, readRaw_firstfield, readRaw_replicate_field,
      -List.reduceReplicate]
  have hsize : headerSize B pre.length = some (fsize f) := by
    unfold headerSize _readNumber
    rw [r124]
    exact parseIntOct_fieldFit (natToOctal_length_le hn4 (by omega)) (by omega)
  have r100 : readRaw B (pre.length + 100) 8
      = fieldFit 8 (_leftPad (modeOf f.attrs opts2 f.data.isNone) 7) := by
    rw [hBdef]
    simp [entryBlock, makeHeader, hdrHead, hdrTail, List.append_assoc,
      readRaw_append_right, readRaw_skip, readRaw_firstfield, readRaw_replicate_field,
      -List.reduceReplicate]
  have r108 : readRaw B (pre.length + 108) 8 = fieldFit 8 (octField (uidOf f.attrs opts2) 7) := by
    rw [hBdef]
    simp [entryBlock, makeHeader, hdrHead, hdrTail, List.append_assoc,
      readRaw_append_right, readRaw_skip, readRaw_firstfield, readRaw_replicate_field,
      -List.reduceReplicate]
  have r116 : readRaw B (pre.length + 116) 8 = fieldFit 8 (octField (gidOf f.attrs opts2) 7) := by
    rw [hBdef]
    simp [entryBlock, makeHeader, hdrHead, hdrTail, List.append_assoc,
      readRaw_append_right, readRaw_skip, readRaw_firstfield, readRaw_replicate_field,
      -List.reduceReplicate]
  have r136 : readRaw B (pre.length + 136) 12
      = fieldFit 12 (octField (mtimeOf f.attrs opts2 now / 1000) 11) := by
    rw [hBdef]
    simp [entryBlock, makeHeader, hdrHead, hdrTail, List.append_assoc,
      readRaw_append_right, readRaw_skip, readRaw_firstfield, readRaw_replicate_field,
      -List.reduceReplicate]
  have r257 : readRaw B (pre.length + 257) 6 = fieldFit 6 (ascii "ustar") := by
    rw [hBdef]
    simp [entryBlock, makeHeader, hdrHead, hdrTail, List.append_assoc,
      readRaw_append_right, readRaw_skip, readRaw_firstfield, readRaw_replicate_field,
      -List.reduceReplicate]
  have r265 : readRaw B (pre.length + 265) 32 = fieldFit 32 (userOf f.attrs opts2) := by
    rw [hBdef]
    simp [entryBlock, makeHeader, hdrHead, hdrTail, List.append_assoc,
      readRaw_append_right, readRaw_skip, readRaw_firstfield, readRaw_replicate_field,
      -List.reduceReplicate]
  have r297 : readRaw B (pre.length + 297) 32 = fieldFit 32 (groupOf f.attrs opts2) := by
    rw [hBdef]
    simp [entryBlock, makeHeader, hdrHead, hdrTail, List.append_assoc,
      readRaw_append_right, readRaw_skip, readRaw_firstfield, readRaw_replicate_field,
      -List.reduceReplicate]
  have r345 : readRaw B (pre.length + 345) 155 = List.replicate 155 0 := by
    rw [hBdef]
    simp [entryBlock, makeHeader, hdrHead, hdrTail, List.append_assoc,
      readRaw_append_right, readRaw_skip, readRaw_firstfield, readRaw_replicate_field,
      -List.reduceReplicate]
  have hustar : ∀ nm, ustarAdjust B pre.length nm
      = (nm, some (_readString (fieldFit 32 (userOf f.attrs opts2)) 0 32),
          some (_readString (fieldFit 32 (groupOf f.attrs opts2)) 0 32)) := by
    intro nm
    have hmagic : _readString B (pre.length + 257) 6 = ascii "ustar" := by
      unfold _readString
      rw [r257]
      exact readString_fieldFit (by decide) (by decide)
    have hpfx : _readString B (pre.length + 345) 155 = [] := by
      unfold _readString
      rw [r345]
      exact takeWhile_of_all_zero (fun b hb => List.eq_of_mem_replicate hb)
    have huser : _readString B (pre.length + 265) 32
        = _readString (fieldFit 32 (userOf f.attrs opts2)) 0 32 := by
      unfold _readString
      rw [r265, readRaw_self (by simp)]
    have hgroup : _readString B (pre.length + 297) 32
        = _readString (fieldFit 32 (groupOf f.attrs opts2)) 0 32 := by
      unfold _readString
      rw [r297, readRaw_self (by simp)]
    unfold ustarAdjust
    rw [hmagic]
    simp only [hpfx, huser, hgroup]
    simp
  have hmode : jsTrim (_readString B (pre.length + 100) 8)
      = jsTrim (_readString (fieldFit 8 (_leftPad (modeOf f.attrs opts2 f.data.isNone) 7)) 0 8) := by
    unfold _readString
    rw [r100, readRaw_self (by simp)]
  have huid : parseIntDec (_readString B (pre.length + 108) 8)
      = parseIntDec (_readString (fieldFit 8 (octField (uidOf f.attrs opts2) 7)) 0 8) := by
    unfold _readString
    rw [r108, readRaw_self (by simp)]
  have hgid : parseIntDec (_readString B (pre.length + 116) 8)
      = parseIntDec (_readString (fieldFit 8 (octField (gidOf f.attrs opts2) 7)) 0 8) := by
    unfold _readString
    rw [r116, readRaw_self (by simp)]
  have hmtime : _readNumber B (pre.length + 136) 12
      = _readNumber (fieldFit 12 (octField (mtimeOf f.attrs opts2 now / 1000) 11)) 0 12 := by
    unfold _readNumber
    rw [r136, readRaw_self (by simp)]
  have hmeta : entryMeta B pre.length none none = (expectedEntry f opts2 now).toTarMeta := by
    simp only [entryMeta]
    rw [rname]
    simp only [resolveName]
    rw [hustar ((fieldFit 100 f.name).takeWhile (fun b => b ≠ 0))]
    simp only [expectedEntry, htype, hsize, hmode, huid, hgid, hmtime]
  have hdata : entryData B pre.length (headerSize B pre.length)
      = (expectedEntry f opts2 now).data := by
    rw [hsize]
    cases hd : f.data with
    | none =>
      have h0 : fsize f = 0 := by simp [fsize, hd]
      rw [h0]
      simp [entryData, expectedEntry, hd]
    | some d =>
      have h0 : fsize f = d.length := by simp [fsize, hd]
      rw [h0]
      by_cases hd0 : d.length = 0
      · rw [hd0]
        simp [entryData, expectedEntry, hd, hd0]
      · have rpl : readRaw B (pre.length + 512) d.length = d := by
          rw [hBdef]
          simp [entryBlock, makeHeader, hdrHead, hdrTail, List.append_assoc, hd,
            readRaw_append_right, readRaw_skip, readRaw_firstfield, readRaw_replicate_field,
            -List.reduceReplicate]
        have hne : entryData B pre.length (some d.length)
            = some (readRaw B (pre.length + 512) d.length) := by
          unfold entryData
          cases hdl : d.length with
          | zero => exact absurd hdl hd0
          | succ m => rfl
        rw [hne, rpl]
        simp [expectedEntry, hd, hd0]
  have hemit : emitOf B ⟨none, false⟩ pre.length none none
      = some (expectedEntry f opts2 now) := by
    simp only [emitOf, hmeta, hdata]
    simp
  have hnotext : ¬(headerType B pre.length = ascii "extendedHeader" ∨
      headerType B pre.length = ascii "globalExtendedHeader") := by
    rw [htype]
    cases hb : f.data.isNone <;> simp <;> decide
  have hnotgnu : ¬(headerType B pre.length = ascii "gnuLongFileName" ∨
      headerType B pre.length = ascii "gnuOldLongFileName" ∨
      headerType B pre.length = ascii "gnuLongLinkName") := by
    rw [htype]
    cases hb : f.data.isNone <;> simp <;> decide
  show parseStep B ⟨none, false⟩ pre.length none none = _
  simp only [parseStep]
  rw [if_pos hguard, rname, if_neg hn1, if_neg hnotext, if_neg hnotgnu, hsize, hemit]

end BlockParsing

theorem parseTarLoop_succ_stop {buf : Str} {opts : ParseOpts} {offset : Nat}
    {n g : Option Headers} {acc : List TarEntry} {fuel : Nat} {e : Option TarEntry}
    (h : parseStep buf opts offset n g = .stop e) :
    parseTarLoop buf opts (fuel + 1) offset n g acc = acc ++ e.toList := by
  have hu : parseTarLoop buf opts (fuel + 1) offset n g acc
      = match parseStep buf opts offset n g with
        | .stop e2 => acc ++ e2.toList
        | .cont off2 n2 g2 e2 => parseTarLoop buf opts fuel off2 n2 g2 (acc ++ e2.toList) := rfl
  rw [hu, h]

theorem parseTarLoop_succ_cont {buf : Str} {opts : ParseOpts} {offset : Nat}
    {n g : Option Headers} {acc : List TarEntry} {fuel : Nat} {o2 : Nat}
    {n2 g2 : Option Headers} {e : Option TarEntry}
    (h : parseStep buf opts offset n g = .cont o2 n2 g2 e) :
    parseTarLoop buf opts (fuel + 1) offset n g acc
      = parseTarLoop buf opts fuel o2 n2 g2 (acc ++ e.toList) := by
  have hu : parseTarLoop buf opts (fuel + 1) offset n g acc
      = match parseStep buf opts offset n g with
        | .stop e2 => acc ++ e2.toList
        | .cont off2 n2 g2 e2 => parseTarLoop buf opts fuel off2 n2 g2 (acc ++ e2.toList) := rfl
  rw [hu, h]

set_option maxRecDepth 8000 in
/-- The parse loop over a run of encoder blocks followed by a tail that is
either too short to pass the loop guard or starts with 100 zero bytes,
decodes exactly the expected entries. -/
theorem parse_blocks (opts2 : CreateOpts) (now : Nat) (fs : List InFile) :
    ∀ (pre T : Str) (fuel : Nat) (acc : List TarEntry),
      (∀ f ∈ fs, goodFile f) →
      (T.length ≤ 512 ∨ ∀ b ∈ T.take 100, b = 0) →
      (∀ l, fs.getLast? = some l → 0 < T.length ∨ 0 < fsize l) →
      fs.length + 1 ≤ fuel →
      parseTarLoop (pre ++ ((fs.map fun f => entryBlock f opts2 now).flatten ++ T))
          ⟨none, false⟩ fuel pre.length none none acc
        = acc ++ fs.map fun f => expectedEntry f opts2 now := by
  induction fs with
  | nil =>
    intro pre T fuel acc hgood hT hlast hfuel
    obtain ⟨u, rfl⟩ : ∃ u, fuel = u + 1 := ⟨fuel - 1, by omega⟩
    simp only [List.map_nil, List.flatten_nil, List.nil_append, List.append_nil]
    by_cases h512 : 512 < T.length
    · have hzero : ∀ b ∈ T.take 100, b = 0 := by
        rcases hT with h | h
        · omega
        · exact h
      have hname : _readString (pre ++ T) pre.length 100 = [] := by
        unfold _readString
        rw [readRaw_append_right0]
        apply takeWhile_of_all_zero
        intro b hb
        apply hzero
        simpa [readRaw] using hb
      have hguard : pre.length < (pre ++ T).length - 512 := by
        simp only [List.length_append]
        omega
      rw [parseTarLoop_succ_stop
        (parseStep_stop_of_zeros (pre ++ T) ⟨none, false⟩ pre.length none none hguard hname)]
      simp
    · rw [parseTarLoop_succ_stop
        (parseStep_stop_of_short (pre ++ T) ⟨none, false⟩ pre.length none none
          (by simp only [List.length_append]; omega))]
      simp
  | cons f fs ih =>
    intro pre T fuel acc hgood hT hlast hfuel
    obtain ⟨u, rfl⟩ : ∃ u, fuel = u + 1 := ⟨fuel - 1, by omega⟩
    have hgf : goodFile f := hgood f (List.mem_cons_self f fs)
    have hlen : 512 < (entryBlock f opts2 now ++ ((fs.map fun g => entryBlock g opts2 now).flatten ++ T)).length := by
      simp only [List.length_append, length_entryBlock]
      have hs := seekOf_ge (fsize f)
      cases fs with
      | nil =>
        rcases hlast f rfl with h | h
        · omega
        · have := seekOf_pos_payload h
          omega
      | cons f2 fs2 =>
        have : seekOf (fsize f2) ≤ ((f2 :: fs2).map fun g => entryBlock g opts2 now).flatten.length := by
          simp only [List.map_cons, List.flatten_cons, List.length_append, length_entryBlock]
          omega
        have h2 := seekOf_ge (fsize f2)
        omega
    have hstep := parseStep_entryBlock pre
      ((fs.map fun g => entryBlock g opts2 now).flatten ++ T) f opts2 now hgf hlen
    have hassoc : pre ++ (((f :: fs).map fun g => entryBlock g opts2 now).flatten ++ T)
        = pre ++ (entryBlock f opts2 now ++ ((fs.map fun g => entryBlock g opts2 now).flatten ++ T)) := by
      simp [List.append_assoc]
    rw [hassoc, parseTarLoop_succ_cont hstep]
    simp only [Option.toList]
    have hpre2 : pre.length + seekOf (fsize f) = (pre ++ entryBlock f opts2 now).length := by
      simp only [List.length_append, length_entryBlock]
    have hassoc2 : pre ++ (entryBlock f opts2 now ++ ((fs.map fun g => entryBlock g opts2 now).flatten ++ T))
        = (pre ++ entryBlock f opts2 now) ++ ((fs.map fun g => entryBlock g opts2 now).flatten ++ T) := by
      simp [List.append_assoc]
    rw [hpre2, hassoc2, ih (pre ++ entryBlock f opts2 now) T u (acc ++ [expectedEntry f opts2 now])
      (fun g hg => hgood g (List.mem_cons_of_mem f hg)) hT
      (by
        intro l hl
        apply hlast
        cases fs with
        | nil => simp at hl
        | cons a t => rw [List.getLast?_cons_cons]; exact hl)
      (by simp at hfuel; omega)]
    simp

theorem flatten_blocks_length (files : List InFile) (opts2 : CreateOpts) (now : Nat) :
    ((files.map fun f => entryBlock f opts2 now).flatten).length = tarDataSize files := by
  simp [tarDataSize, List.map_map, Function.comp_def]

theorem length_le_tarDataSize (files : List InFile) : files.length ≤ tarDataSize files := by
  induction files with
  | nil => simp [tarDataSize]
  | cons f fs ih =>
    simp only [tarDataSize, List.map_cons, List.sum_cons, List.length_cons] at *
    have := seekOf_ge (fsize f)
    omega

theorem tarDataSize_lt_bufSize {files : List InFile}
    (h : tarDataSize files % 10240 ≠ 0) : tarDataSize files < bufSize (tarDataSize files) := by
  unfold bufSize
  rw [if_pos h]
  have := Nat.div_add_mod (tarDataSize files) 10240
  have h2 : tarDataSize files % 10240 < 10240 := Nat.mod_lt _ (by omega)
  omega

theorem tarDataSize_le_bufSize (tds : Nat) : tds ≤ bufSize tds := by
  unfold bufSize
  by_cases h : tds % 10240 ≠ 0
  · rw [if_pos h]
    have := Nat.div_add_mod tds 10240
    have h2 : tds % 10240 < 10240 := Nat.mod_lt _ (by omega)
    omega
  · rw [if_neg h]
    have := Nat.div_add_mod tds 10240
    omega

/-- The decoder recovers the encoder output entry for entry whenever each
entry is well formed and the archive does not end in a zero-payload entry
flush against an exact 10240-byte buffer boundary. -/
theorem roundTrip (files : List InFile) (opts2 : CreateOpts) (now : Nat)
    (hgood : ∀ f ∈ files, goodFile f)
    (hend : tarDataSize files % 10240 ≠ 0 ∨ ∀ l, files.getLast? = some l → 0 < fsize l) :
    parseTar (createTar files opts2 now) ⟨none, false⟩
      = files.map fun f => expectedEntry f opts2 now := by
  unfold parseTar createTar
  have hshape : (files.map fun f => entryBlock f opts2 now).flatten ++
        List.replicate (bufSize (tarDataSize files) - tarDataSize files) 0
      = ([] : Str) ++ ((files.map fun f => entryBlock f opts2 now).flatten ++
        List.replicate (bufSize (tarDataSize files) - tarDataSize files) 0) := by
    simp
  rw [hshape]
  have hT : (List.replicate (bufSize (tarDataSize files) - tarDataSize files) 0).length ≤ 512 ∨
      ∀ b ∈ (List.replicate (bufSize (tarDataSize files) - tarDataSize files) 0).take 100, b = 0 := by
    right
    intro b hb
    exact List.eq_of_mem_replicate (List.mem_of_mem_take hb)
  have hlast : ∀ l, files.getLast? = some l →
      0 < (List.replicate (bufSize (tarDataSize files) - tarDataSize files) 0).length ∨
      0 < fsize l := by
    intro l hl
    rcases hend with h | h
    · left
      have := tarDataSize_lt_bufSize h
      simp only [List.length_replicate]
      omega
    · right
      exact h l hl
  have hfuel : files.length + 1 ≤
      (([] : Str) ++ ((files.map fun f => entryBlock f opts2 now).flatten ++
        List.replicate (bufSize (tarDataSize files) - tarDataSize files) 0)).length + 1 := by
    simp only [List.nil_append, List.length_append, flatten_blocks_length]
    have := length_le_tarDataSize files
    omega
  have := parse_blocks opts2 now files []
    (List.replicate (bufSize (tarDataSize files) - tarDataSize files) 0)
    ((([] : Str) ++ ((files.map fun f => entryBlock f opts2 now).flatten ++
        List.replicate (bufSize (tarDataSize files) - tarDataSize files) 0)).length + 1)
    [] hgood hT hlast hfuel
  simpa using this

theorem createTar_length (files : List InFile) (opts2 : CreateOpts) (now : Nat) :
    (createTar files opts2 now).length = bufSize (tarDataSize files) := by
  simp only [createTar, List.length_append, flatten_blocks_length, List.length_replicate]
  have := tarDataSize_le_bufSize (tarDataSize files)
  omega

/-! ## Claim C1 -/

/-- C1 (amended): for entries with nonempty NUL-free names of at most 100
UTF-8 bytes and payloads below 8^11 bytes, and provided the total block size
is not an exact multiple of 10240 or the final entry has a nonzero payload,
parseTar of createTar yields a sequence of the same length with, entry by
entry, identical name, type (file when data was present, directory when
absent), size, and payload bytes. -/
theorem C1_round_trip (files : List InFile) (opts2 : CreateOpts) (now : Nat)
    (hname : ∀ f ∈ files, f.name ≠ [] ∧ f.name.length ≤ 100 ∧ ∀ b ∈ f.name, b ≠ 0)
    (hsizes : ∀ f ∈ files, fsize f < 8 ^ 11)
    (hend : tarDataSize files % 10240 ≠ 0 ∨ ∀ l, files.getLast? = some l → 0 < fsize l) :
    (parseTar (createTar files opts2 now) ⟨none, false⟩).length = files.length ∧
    ∀ (i : Nat) (h1 : i < (parseTar (createTar files opts2 now) ⟨none, false⟩).length)
      (h2 : i < files.length),
      ((parseTar (createTar files opts2 now) ⟨none, false⟩).get ⟨i, h1⟩).name
          = (files.get ⟨i, h2⟩).name ∧
      ((parseTar (createTar files opts2 now) ⟨none, false⟩).get ⟨i, h1⟩).type
          = (if (files.get ⟨i, h2⟩).data.isSome then ascii "file" else ascii "directory") ∧
      ((parseTar (createTar files opts2 now) ⟨none, false⟩).get ⟨i, h1⟩).size
          = some (fsize (files.get ⟨i, h2⟩)) ∧
      ((parseTar (createTar files opts2 now) ⟨none, false⟩).get ⟨i, h1⟩).data.getD []
          = (files.get ⟨i, h2⟩).data.getD [] := by
  have hgood : ∀ f ∈ files, goodFile f := by
    intro f hf
    obtain ⟨a, b, c⟩ := hname f hf
    exact ⟨by rw [nameField_of_clean b c]; exact a, hsizes f hf⟩
  have hmain := roundTrip files opts2 now hgood hend
  constructor
  · rw [hmain, List.length_map]
  · intro i h1 h2
    have hi : (parseTar (createTar files opts2 now) ⟨none, false⟩).get ⟨i, h1⟩
        = expectedEntry (files.get ⟨i, h2⟩) opts2 now := by
      simp only [List.get_eq_getElem] at *
      rw [List.getElem_of_eq hmain, List.getElem_map]
    obtain ⟨a, b, c⟩ := hname _ (List.get_mem files i h2)
    rw [hi]
    refine ⟨?_, ?_, rfl, ?_⟩
    · simp only [expectedEntry]
      exact nameField_of_clean b c
    · simp only [expectedEntry]
      cases (files.get ⟨i, h2⟩).data <;> simp
    · simp only [expectedEntry]
      cases hd : (files.get ⟨i, h2⟩).data with
      | none => simp
      | some d =>
        by_cases h0 : d.length = 0
        · have : d = [] := List.length_eq_zero.mp h0
          simp [h0, this]
        · simp [h0]

/-- Witness for C1: a single regular file round-trips. -/
theorem C1_round_trip_witness :
    ((∀ f ∈ ([⟨[97], some [104, 105], none⟩] : List InFile),
        f.name ≠ [] ∧ f.name.length ≤ 100 ∧ ∀ b ∈ f.name, b ≠ 0) ∧
      tarDataSize [⟨[97], some [104, 105], none⟩] % 10240 ≠ 0) ∧
    (parseTar (createTar [⟨[97], some [104, 105], none⟩] ⟨none⟩ 0) ⟨none, false⟩).length
      = ([⟨[97], some [104, 105], none⟩] : List InFile).length :=
  ⟨⟨by decide, by decide⟩,
    (C1_round_trip [⟨[97], some [104, 105], none⟩] ⟨none⟩ 0 (by decide) (by decide)
      (Or.inl (by decide))).1⟩

/-- A directory entry used in the boundary counterexample. -/
def cexDir : InFile := ⟨[100], none, none⟩

theorem parse_empty_name_drop :
    parseTar (createTar [⟨[], some [120], none⟩] ⟨none⟩ 0) ⟨none, false⟩ = [] := by
  have hBlen : (createTar [⟨[], some [120], none⟩] ⟨none⟩ 0).length = 10240 := by
    rw [createTar_length]
    decide
  have r0 : readRaw (createTar [⟨[], some [120], none⟩] ⟨none⟩ 0) 0 100 = fieldFit 100 [] := by
    simp [createTar, entryBlock, makeHeader, hdrHead, hdrTail, List.append_assoc,
      readRaw_append_right, readRaw_skip, readRaw_firstfield, readRaw_replicate_field,
      -List.reduceReplicate]
  have hname : _readString (createTar [⟨[], some [120], none⟩] ⟨none⟩ 0) 0 100 = [] := by
    unfold _readString
    rw [r0]
    apply takeWhile_of_all_zero
    intro b hb
    simp only [fieldFit, List.take_nil, List.nil_append] at hb
    exact List.eq_of_mem_replicate hb
  have hstep := parseStep_stop_of_zeros (createTar [⟨[], some [120], none⟩] ⟨none⟩ 0)
    ⟨none, false⟩ 0 none none (by rw [hBlen]; omega) hname
  unfold parseTar
  rw [parseTarLoop_succ_stop hstep]
  simp

theorem parse_nul_name :
    (parseTar (createTar [⟨[97, 0, 98], some [120], none⟩] ⟨none⟩ 0) ⟨none, false⟩).map
      (fun e => e.name) = [[97]] := by
  rw [roundTrip [⟨[97, 0, 98], some [120], none⟩] ⟨none⟩ 0
    (by intro f hf; simp at hf; subst hf; constructor <;> decide)
    (Or.inl (by decide))]
  simp only [List.map_cons, List.map_nil, expectedEntry]
  decide

theorem parse_twenty_dirs :
    parseTar (createTar (List.replicate 20 cexDir) ⟨none⟩ 0) ⟨none, false⟩
      = (List.replicate 19 cexDir).map fun f => expectedEntry f ⟨none⟩ 0 := by
  have htds : tarDataSize (List.replicate 20 cexDir) = 10240 := by decide
  have hZ : bufSize (tarDataSize (List.replicate 20 cexDir)) - tarDataSize (List.replicate 20 cexDir) = 0 := by
    rw [htds]
    decide
  have h20 : List.replicate 20 cexDir = List.replicate 19 cexDir ++ [cexDir] :=
    List.replicate_succ' 19 cexDir ▸ rfl
  have hB : createTar (List.replicate 20 cexDir) ⟨none⟩ 0
      = ([] : Str) ++ (((List.replicate 19 cexDir).map fun f => entryBlock f ⟨none⟩ 0).flatten
          ++ entryBlock cexDir ⟨none⟩ 0) := by
    unfold createTar
    rw [hZ, h20]
    simp
  have htds19 : tarDataSize (List.replicate 19 cexDir) = 9728 := by decide
  have hlen19 : (((List.replicate 19 cexDir).map fun f => entryBlock f ⟨none⟩ 0).flatten).length
      = 9728 := by
    rw [flatten_blocks_length, htds19]
  have hblock : (entryBlock cexDir ⟨none⟩ 0).length = 512 := by
    rw [length_entryBlock]
    decide
  have hres := parse_blocks ⟨none⟩ 0 (List.replicate 19 cexDir) []
    (entryBlock cexDir ⟨none⟩ 0)
    ((([] : Str) ++ (((List.replicate 19 cexDir).map fun f => entryBlock f ⟨none⟩ 0).flatten
        ++ entryBlock cexDir ⟨none⟩ 0)).length + 1) []
    (by
      intro f hf
      have := List.eq_of_mem_replicate hf
      subst this
      constructor <;> decide)
    (by left; omega)
    (by intro l hl; left; omega)
    (by
      simp only [List.nil_append, List.length_append, hlen19, hblock, List.length_replicate]
      omega)
  unfold parseTar
  rw [hB]
  simp only [List.length_nil, List.nil_append] at hres ⊢
  exact hres

/-- C1 counterexample: the round trip as stated fails for an empty name (the
decoder stops at the first empty name field), for a name containing a NUL
byte (the name field read stops at the NUL), and for twenty directories
(whose blocks exactly fill 10240 bytes, so the loop guard drops the final
entry). -/
theorem C1_counterexample :
    (parseTar (createTar [⟨[], some [120], none⟩] ⟨none⟩ 0) ⟨none, false⟩).length
        ≠ ([⟨[], some [120], none⟩] : List InFile).length ∧
    (parseTar (createTar [⟨[97, 0, 98], some [120], none⟩] ⟨none⟩ 0) ⟨none, false⟩).map
        (fun e => e.name) ≠ [[97, 0, 98]] ∧
    (parseTar (createTar (List.replicate 20 cexDir) ⟨none⟩ 0) ⟨none, false⟩).length
        ≠ (List.replicate 20 cexDir).length := by
  refine ⟨?_, ?_, ?_⟩
  · rw [parse_empty_name_drop]
    simp
  · rw [parse_nul_name]
    decide
  · rw [parse_twenty_dirs]
    simp

/-! ## Unfolding lemmas for the individual parseStep branches -/

theorem parseStep_plain {buf : Str} (opts : ParseOpts) {offset : Nat}
    (next global : Option Headers) {s : Nat}
    (hguard : offset < buf.length - 512)
    (hname : _readString buf offset 100 ≠ [])
    (hext : ¬(headerType buf offset = ascii "extendedHeader" ∨
      headerType buf offset = ascii "globalExtendedHeader"))
    (hgnu : ¬(headerType buf offset = ascii "gnuLongFileName" ∨
      headerType buf offset = ascii "gnuOldLongFileName" ∨
      headerType buf offset = ascii "gnuLongLinkName"))
    (hsize : headerSize buf offset = some s) :
    parseStep buf opts offset next global
      = .cont (offset + seekOf s) none global (emitOf buf opts offset next global) := by
  simp only [parseStep]
  rw [if_pos hguard, if_neg hname, if_neg hext, if_neg hgnu, hsize]

theorem parseStep_extHeader {buf : Str} (opts : ParseOpts) {offset : Nat}
    (next global : Option Headers) {s : Nat}
    (hguard : offset < buf.length - 512)
    (hname : _readString buf offset 100 ≠ [])
    (htype : headerType buf offset = ascii "extendedHeader")
    (hsize : headerSize buf offset = some s) :
    parseStep buf opts offset next global
      = .cont (offset + seekOf s)
          (some (_parseExtendedHeaders (readRaw buf (offset + 512) s))) global none := by
  simp only [parseStep]
  rw [if_pos hguard, if_neg hname, htype, if_pos (Or.inl rfl), hsize]
  simp

theorem parseStep_globalHeader {buf : Str} (opts : ParseOpts) {offset : Nat}
    (next global : Option Headers) {s : Nat}
    (hguard : offset < buf.length - 512)
    (hname : _readString buf offset 100 ≠ [])
    (htype : headerType buf offset = ascii "globalExtendedHeader")
    (hsize : headerSize buf offset = some s) :
    parseStep buf opts offset next global
      = .cont (offset + seekOf s) none
          (some (_parseExtendedHeaders (readRaw buf (offset + 512) s) ++ global.getD []))
          none := by
  simp only [parseStep]
  rw [if_pos hguard, if_neg hname, htype, if_pos (Or.inr rfl), hsize]
  simp only []
  rw [if_neg (by decide)]

/-! ## Claim C2 -/

/-- A regular file entry whose uid attribute is 1000 (written by createTar as
the octal field 0001750). -/
def uidFile : InFile := ⟨[97], some [120], some ⟨none, some 1000, none, none, none, none⟩⟩

/-- C2 is wrong about the code: parseTar reads the uid and gid fields with
Number.parseInt and no radix, that is in base 10, not base 8 like the size
and mtime fields.  For the uid field bytes "0001750" written by createTar for
uid 1000, the decoder yields 1750, while the octal reading used for size and
mtime (_readNumber) yields 1000. -/
theorem C2_uid_decimal_not_octal :
    (parseTar (createTar [uidFile] ⟨none⟩ 0) ⟨none, false⟩).map
        (fun e => alookup e.attrs (ascii "uid")) = [some (.vnum (some 1750))] ∧
    parseIntDec (ascii "0001750") = some 1750 ∧
    parseIntOct (ascii "0001750") = some 1000 ∧
    octField (uidOf uidFile.attrs ⟨none⟩) 7 = ascii "0001750" := by
  refine ⟨?_, by decide, by decide, by decide⟩
  rw [roundTrip [uidFile] ⟨none⟩ 0
    (by intro f hf; simp at hf; subst hf; constructor <;> decide)
    (Or.inl (by decide))]
  simp only [List.map_cons, List.map_nil, expectedEntry]
  decide

/-! ## Claim C3 -/

/-- C3 (amended): the parseTar loop processes a header only when strictly
more than 512 bytes remain after the cursor (offset < byteLength - 512).  A
buffer with at most 512 bytes after the cursor yields no further entries, so
a header starting exactly 512 bytes before the end of the buffer is not
decoded; an all-zero buffer of any length decodes to the empty sequence; and
when more than 512 bytes remain and the block holds a plain header with a
nonempty name and parseable size, the step decodes and emits it. -/
theorem C3_loop_guard :
    (∀ (buf : Str) (opts : ParseOpts) (fuel offset : Nat) (next global : Option Headers)
        (acc : List TarEntry), buf.length ≤ offset + 512 →
        parseTarLoop buf opts fuel offset next global acc = acc) ∧
    (∀ (n : Nat) (opts : ParseOpts), parseTar (List.replicate n 0) opts = []) ∧
    (∀ (buf : Str) (opts : ParseOpts) (offset : Nat) (next global : Option Headers) (s : Nat),
        offset < buf.length - 512 →
        _readString buf offset 100 ≠ [] →
        ¬(headerType buf offset = ascii "extendedHeader" ∨
          headerType buf offset = ascii "globalExtendedHeader") →
        ¬(headerType buf offset = ascii "gnuLongFileName" ∨
          headerType buf offset = ascii "gnuOldLongFileName" ∨
          headerType buf offset = ascii "gnuLongLinkName") →
        headerSize buf offset = some s →
        parseStep buf opts offset next global
          = .cont (offset + seekOf s) none global (emitOf buf opts offset next global)) := by
  have hshort : ∀ (buf : Str) (opts : ParseOpts) (fuel offset : Nat)
      (next global : Option Headers) (acc : List TarEntry), buf.length ≤ offset + 512 →
      parseTarLoop buf opts fuel offset next global acc = acc := by
    intro buf opts fuel offset next global acc h
    cases fuel with
    | zero => rfl
    | succ u =>
      rw [parseTarLoop_succ_stop (parseStep_stop_of_short buf opts offset next global h)]
      simp
  refine ⟨hshort, ?_, ?_⟩
  · intro n opts
    by_cases h : n ≤ 512
    · exact hshort _ _ _ _ _ _ _ (by simp; omega)
    · have hname : _readString (List.replicate n 0) 0 100 = [] := by
        unfold _readString
        apply takeWhile_of_all_zero
        intro b hb
        simp only [readRaw] at hb
        exact List.eq_of_mem_replicate (List.mem_of_mem_drop (List.mem_of_mem_take hb))
      unfold parseTar
      rw [parseTarLoop_succ_stop
        (parseStep_stop_of_zeros _ opts 0 none none (by simp; omega) hname)]
      simp
  · intro buf opts offset next global s h1 h2 h3 h4 h5
    exact parseStep_plain opts next global h1 h2 h3 h4 h5

/-- C3 counterexample: a single valid 512-byte header block with a nonempty
name, forming the whole buffer, is not decoded: the claim says processing
happens whenever at least one full 512-byte header remains, but the guard
needs strictly more. -/
theorem C3_counterexample :
    (fieldFit 512 (ascii "x")).length = 512 ∧
    _readString (fieldFit 512 (ascii "x")) 0 100 ≠ [] ∧
    parseTar (fieldFit 512 (ascii "x")) ⟨none, false⟩ = [] := by
  refine ⟨by simp, by decide, ?_⟩
  unfold parseTar
  rw [parseTarLoop_succ_stop
    (parseStep_stop_of_short _ ⟨none, false⟩ 0 none none (by simp))]
  simp

/-- A 1024-byte buffer holding one plain header: name "x", an all-zero size
field image with octal value 0, everything else zero. -/
def cexHdr : Str := fieldFit 124 (ascii "x") ++ fieldFit 12 (octField 0 11) ++ fieldFit 888 []

/-- Witness for C3: the stop side at a short buffer and the processing side
at a concrete 1024-byte buffer. -/
theorem C3_loop_guard_witness :
    (parseTarLoop (fieldFit 512 (ascii "x")) ⟨none, false⟩ 7 0 none none [] = []) ∧
    parseStep cexHdr ⟨none, false⟩ 0 none none
      = .cont (0 + seekOf 0) none none (emitOf cexHdr ⟨none, false⟩ 0 none none) := by
  constructor
  · exact C3_loop_guard.1 _ _ _ _ _ _ _ (by simp)
  · exact C3_loop_guard.2.2 cexHdr ⟨none, false⟩ 0 none none 0
      (by simp [cexHdr]) (by decide) (by decide) (by decide) (by decide)

/-! ## Claim C5 -/

theorem alookup_append {α : Type} (l1 l2 : List (Str × α)) (k : Str) :
    alookup (l1 ++ l2) k = (alookup l1 k).or (alookup l2 k) := by
  induction l1 with
  | nil => simp [alookup]
  | cons p t ih =>
    obtain ⟨k2, v⟩ := p
    by_cases h : k2 = k
    · simp [alookup, h]
    · simp [alookup, h, ih]

/-- C5: in every decoded entry, attrs is assembled as the six explicit fields
in front of the pending next-entry headers in front of the global headers, so
a first-match lookup realises the precedence global < next-entry < explicit;
the pending header is consumed by exactly the one entry that follows it and
the continuation state carries none; a global extended header also clears any
pending next-entry header; and the decoded name never consults the global
headers, so a global path key alone does not rename. -/
theorem C5_attrs_precedence :
    (∀ (global next : Option Headers) (mode : Str) (uid gid mtime : Option Nat)
        (user group : Option Str) (k : Str),
      alookup (mkAttrs global next mode uid gid mtime user group) k
        = ((alookup (explicitSix mode uid gid mtime user group) k).or
            ((alookup (hdrsAttrs (next.getD [])) k).or
              (alookup (hdrsAttrs (global.getD [])) k)))) ∧
    (∀ (buf : Str) (offset : Nat) (next global : Option Headers),
      (entryMeta buf offset next global).attrs
        = mkAttrs global next
            (jsTrim (_readString buf (offset + 100) 8))
            (parseIntDec (_readString buf (offset + 108) 8))
            (parseIntDec (_readString buf (offset + 116) 8))
            (_readNumber buf (offset + 136) 12)
            (ustarAdjust buf offset (resolveName next (_readString buf offset 100))).2.1
            (ustarAdjust buf offset (resolveName next (_readString buf offset 100))).2.2) ∧
    (∀ (buf : Str) (opts : ParseOpts) (offset : Nat) (next global : Option Headers) (s : Nat),
        offset < buf.length - 512 →
        _readString buf offset 100 ≠ [] →
        ¬(headerType buf offset = ascii "extendedHeader" ∨
          headerType buf offset = ascii "globalExtendedHeader") →
        ¬(headerType buf offset = ascii "gnuLongFileName" ∨
          headerType buf offset = ascii "gnuOldLongFileName" ∨
          headerType buf offset = ascii "gnuLongLinkName") →
        headerSize buf offset = some s →
        parseStep buf opts offset next global
          = .cont (offset + seekOf s) none global (emitOf buf opts offset next global)) ∧
    (∀ (buf : Str) (opts : ParseOpts) (offset : Nat) (next global : Option Headers) (s : Nat),
        offset < buf.length - 512 →
        _readString buf offset 100 ≠ [] →
        headerType buf offset = ascii "globalExtendedHeader" →
        headerSize buf offset = some s →
        parseStep buf opts offset next global
          = .cont (offset + seekOf s) none
              (some (_parseExtendedHeaders (readRaw buf (offset + 512) s) ++ global.getD []))
              none) ∧
    (∀ (buf : Str) (offset : Nat) (global : Option Headers),
      (entryMeta buf offset none global).name = (entryMeta buf offset none none).name) := by
  refine ⟨?_, ?_, ?_, ?_, ?_⟩
  · intro global next mode uid gid mtime user group k
    unfold mkAttrs
    rw [alookup_append, alookup_append, Option.or_assoc]
  · intro buf offset next global
    rfl
  · intro buf opts offset next global s h1 h2 h3 h4 h5
    exact parseStep_plain opts next global h1 h2 h3 h4 h5
  · intro buf opts offset next global s h1 h2 h3 h4
    exact parseStep_globalHeader opts next global h1 h2 h3 h4
  · intro buf offset global
    rfl

/-- A 524-byte buffer holding a global extended header: name "x", size field
12, type byte g at offset 156, and a 12-byte payload holding "11 path=gp". -/
def cexExt : Str :=
  fieldFit 124 (ascii "x") ++ fieldFit 12 (octField 12 11) ++ fieldFit 20 [] ++
    fieldFit 1 (ascii "g") ++ fieldFit 355 [] ++ fieldFit 12 (ascii "11 path=gp")

/-- Witness for C5: concrete lookups and a concrete global-header step.  The
buffer cexExt holds a header of type g (global extended header) whose 12-byte
payload holds the record "11 path=gp". -/
theorem C5_attrs_precedence_witness :
    (alookup (mkAttrs (some [(ascii "path", some (ascii "G"))])
        (some [(ascii "path", some (ascii "N"))]) (ascii "7") none none none none none)
        (ascii "path") = some (.vstr (ascii "N"))) ∧
    (alookup (mkAttrs (some [(ascii "path", some (ascii "G"))]) none
        (ascii "7") none none none none none)
        (ascii "path") = some (.vstr (ascii "G"))) ∧
    (alookup (mkAttrs (some [(ascii "mode", some (ascii "G"))]) none
        (ascii "7") none none none none none)
        (ascii "mode") = some (.vstr (ascii "7"))) ∧
    parseStep cexExt ⟨none, false⟩ 0 (some [(ascii "path", some (ascii "N"))]) none
      = .cont (0 + seekOf 12) none
          (some (_parseExtendedHeaders (readRaw cexExt (0 + 512) 12) ++ ([] : Headers)))
          none := by
  refine ⟨?_, ?_, ?_, ?_⟩
  · rw [C5_attrs_precedence.1]
    decide
  · rw [C5_attrs_precedence.1]
    decide
  · rw [C5_attrs_precedence.1]
    decide
  · have h := C5_attrs_precedence.2.2.2.1 cexExt ⟨none, false⟩ 0
      (some [(ascii "path", some (ascii "N"))]) none 12
      (by simp [cexExt]) (by decide) (by decide) (by decide)
    simpa using h

/-! ## Claim C6 -/

theorem parseStep_cont_offset {buf : Str} {opts : ParseOpts} {offset : Nat}
    {next global : Option Headers} {off2 : Nat} {n2 g2 : Option Headers}
    {e : Option TarEntry} {s : Nat}
    (h : parseStep buf opts offset next global = .cont off2 n2 g2 e)
    (hs : headerSize buf offset = some s) :
    off2 = offset + seekOf s := by
  simp only [parseStep, hs] at h
  by_cases h1 : offset < buf.length - 512
  · rw [if_pos h1] at h
    by_cases h2 : _readString buf offset 100 = []
    · rw [if_pos h2] at h
      exact StepResult.noConfusion h
    · rw [if_neg h2] at h
      by_cases h3 : headerType buf offset = ascii "extendedHeader" ∨
          headerType buf offset = ascii "globalExtendedHeader"
      · rw [if_pos h3] at h
        by_cases h4 : headerType buf offset = ascii "extendedHeader"
        · rw [if_pos h4] at h
          injection h with ha
          exact ha.symm
        · rw [if_neg h4] at h
          injection h with ha
          exact ha.symm
      · rw [if_neg h3] at h
        by_cases h5 : headerType buf offset = ascii "gnuLongFileName" ∨
            headerType buf offset = ascii "gnuOldLongFileName" ∨
            headerType buf offset = ascii "gnuLongLinkName"
        · rw [if_pos h5] at h
          injection h with ha
          exact ha.symm
        · rw [if_neg h5] at h
          injection h with ha
          exact ha.symm
  · rw [if_neg h1] at h
    exact StepResult.noConfusion h

/-- C6: the decoder computes seek as 512 plus 512 times the floor of size
over 512, plus 512 more when the size is not an exact multiple of 512, and
continues at offset + seek; the encoder lays every entry out in a block of
exactly that many bytes, so each subsequent header starts at the same
512-byte-aligned distance after the previous one. -/
theorem C6_block_alignment :
    (∀ s : Nat, seekOf s = 512 + 512 * (s / 512) + (if s % 512 ≠ 0 then 512 else 0)) ∧
    (∀ s : Nat, 512 ∣ seekOf s) ∧
    (∀ (f : InFile) (opts2 : CreateOpts) (now : Nat),
      (entryBlock f opts2 now).length = seekOf (fsize f)) ∧
    (∀ (buf : Str) (opts : ParseOpts) (offset : Nat) (next global : Option Headers)
        (off2 : Nat) (n2 g2 : Option Headers) (e : Option TarEntry) (s : Nat),
      parseStep buf opts offset next global = .cont off2 n2 g2 e →
      headerSize buf offset = some s →
      off2 = offset + seekOf s) := by
  refine ⟨fun s => rfl, dvd_seekOf, fun f opts2 now => length_entryBlock f opts2 now, ?_⟩
  intro buf opts offset next global off2 n2 g2 e s h hs
  exact parseStep_cont_offset h hs

/-- Witness for C6: the cursor advance at the concrete 1024-byte plain header
buffer, and the block length of a concrete directory entry. -/
theorem C6_block_alignment_witness :
    seekOf 513 = 512 + 512 * (513 / 512) + (if 513 % 512 ≠ 0 then 512 else 0) ∧
    (entryBlock cexDir ⟨none⟩ 0).length = seekOf (fsize cexDir) ∧
    512 = 0 + seekOf 0 := by
  have h512 : parseStep cexHdr ⟨none, false⟩ 0 none none
      = .cont 512 none none (emitOf cexHdr ⟨none, false⟩ 0 none none) := by
    rw [parseStep_plain (s := 0) ⟨none, false⟩ none none (by simp [cexHdr]) (by decide)
      (by decide) (by decide) (by decide)]
    rfl
  exact ⟨C6_block_alignment.1 513, C6_block_alignment.2.2.1 cexDir ⟨none⟩ 0,
    C6_block_alignment.2.2.2 cexHdr ⟨none, false⟩ 0 none none 512 none none _ 0 h512 (by decide)⟩

/-! ## Claim C7 -/

/-- C7: for a header whose magic field reads exactly "ustar" and whose prefix
field is nonempty, the decoded name is the join of prefix and name: when the
prefix ends with a slash and the name starts with one, the name's leading
slash is dropped; when exactly one of the two holds, they are concatenated
directly; when neither holds, a slash is inserted. -/
theorem C7_ustar_prefix_join :
    (∀ (buf : Str) (offset : Nat) (nm : Str),
      _readString buf (offset + 257) 6 = ascii "ustar" →
      _readString buf (offset + 345) 155 ≠ [] →
      (ustarAdjust buf offset nm).1 = joinName (_readString buf (offset + 345) 155) nm) ∧
    (∀ pfx nm : Str, pfx.getLast? = some 47 → nm.head? = some 47 →
      joinName pfx nm = pfx ++ nm.tail) ∧
    (∀ pfx nm : Str, (pfx.getLast? = some 47 ∧ ¬nm.head? = some 47) ∨
        (¬pfx.getLast? = some 47 ∧ nm.head? = some 47) →
      joinName pfx nm = pfx ++ nm) ∧
    (∀ pfx nm : Str, ¬pfx.getLast? = some 47 → ¬nm.head? = some 47 →
      joinName pfx nm = pfx ++ [47] ++ nm) := by
  refine ⟨?_, ?_, ?_, ?_⟩
  · intro buf offset nm hmagic hpfx
    simp only [ustarAdjust, hmagic, if_true]
    rw [if_neg hpfx]
  · intro pfx nm h1 h2
    unfold joinName
    rw [if_pos ⟨h1, h2⟩]
  · intro pfx nm h
    unfold joinName
    rcases h with ⟨h1, h2⟩ | ⟨h1, h2⟩
    · rw [if_neg (by tauto), if_pos (Or.inl h1)]
    · rw [if_neg (by tauto), if_pos (Or.inr h2)]
  · intro pfx nm h1 h2
    unfold joinName
    rw [if_neg (by tauto), if_neg (by tauto)]

/-- A 500-byte header image whose magic field reads "ustar" and whose prefix
field holds "p". -/
def cexUstar : Str :=
  fieldFit 257 (ascii "n") ++ fieldFit 6 (ascii "ustar") ++ fieldFit 82 [] ++
    fieldFit 155 (ascii "p")

/-- Witness for C7: the two joins from the spec examples and a concrete
prefixed header. -/
theorem C7_ustar_prefix_join_witness :
    joinName (ascii "a/b/") (ascii "/c.txt") = ascii "a/b/c.txt" ∧
    joinName (ascii "a/b") (ascii "c.txt") = ascii "a/b/c.txt" ∧
    (ustarAdjust cexUstar 0 (ascii "c")).1 = joinName (_readString cexUstar 345 155) (ascii "c") := by
  refine ⟨?_, ?_, ?_⟩
  · rw [C7_ustar_prefix_join.2.1 _ _ (by decide) (by decide)]
    decide
  · rw [C7_ustar_prefix_join.2.2.2 _ _ (by decide) (by decide)]
    decide
  · have h := C7_ustar_prefix_join.1 cexUstar 0 (ascii "c") (by decide) (by decide)
    simpa using h

/-! ## Claim C9 -/

/-- C9: a header whose one-byte type field is the NUL byte is classified as a
regular file: the empty type string read from the field defaults to "0",
which the type map sends to "file". -/
theorem C9_nul_type_is_file :
    (∀ (buf : Str) (offset : Nat), buf[offset + 156]? = some 0 →
      headerType buf offset = ascii "file") ∧
    typeOf [] = ascii "file" ∧
    tarItemTypeMap (ascii "0") = some (ascii "file") := by
  refine ⟨?_, by decide, by decide⟩
  intro buf offset h
  have hlt : offset + 156 < buf.length := by
    by_contra hc
    rw [List.getElem?_eq_none (by omega)] at h
    exact Option.noConfusion h
  have h0 : buf[offset + 156] = 0 := by
    rw [List.getElem?_eq_getElem hlt] at h
    injection h
  have hdrop : buf.drop (offset + 156) = 0 :: buf.drop (offset + 156 + 1) := by
    rw [List.drop_eq_getElem_cons hlt, h0]
  unfold headerType _readString readRaw
  rw [hdrop]
  simp only [List.take_succ_cons, List.take_zero]
  decide

/-- Witness for C9: a concrete all-zero 200-byte buffer. -/
theorem C9_nul_type_is_file_witness :
    (List.replicate 200 (0 : Nat))[156]? = some 0 ∧
    headerType (List.replicate 200 0) 0 = ascii "file" :=
  ⟨by decide, C9_nul_type_is_file.1 (List.replicate 200 0) 0 (by decide)⟩

/-! ## Claim C10 -/

theorem mtimeOf_of_isSome {fattrs : Option CreateAttrs} {opts2 : CreateOpts} {n1 n2 : Nat}
    (h : (rattr fattrs opts2.attrs CreateAttrs.mtime).isSome = true) :
    mtimeOf fattrs opts2 n1 = mtimeOf fattrs opts2 n2 := by
  obtain ⟨v, hv⟩ := Option.isSome_iff_exists.mp h
  unfold mtimeOf
  rw [hv]
  rfl

theorem makeHeader_clock_free {name : Str} {isDir : Bool} {size : Nat}
    {fattrs : Option CreateAttrs} {opts2 : CreateOpts} {n1 n2 : Nat}
    (h : (rattr fattrs opts2.attrs CreateAttrs.mtime).isSome = true) :
    makeHeader name isDir size fattrs opts2 n1 = makeHeader name isDir size fattrs opts2 n2 := by
  unfold makeHeader
  rw [mtimeOf_of_isSome h]

/-- C10: createTar is deterministic whenever every entry resolves an mtime
from its own attrs or the archive-wide default attrs: the output bytes do not
depend on the clock argument that models Date.now(). -/
theorem C10_deterministic (files : List InFile) (opts2 : CreateOpts) (n1 n2 : Nat)
    (h : ∀ f ∈ files, (rattr f.attrs opts2.attrs CreateAttrs.mtime).isSome = true) :
    createTar files opts2 n1 = createTar files opts2 n2 := by
  unfold createTar
  congr 1
  congr 1
  apply List.map_congr_left
  intro f hf
  unfold entryBlock
  rw [makeHeader_clock_free (h f hf)]

/-- Witness for C10: one entry carrying its own mtime encodes identically at
two different clock values. -/
theorem C10_deterministic_witness :
    (∀ f ∈ ([⟨[97], some [120], some ⟨none, none, none, some 5000, none, none⟩⟩] : List InFile),
      (rattr f.attrs (CreateOpts.mk none).attrs CreateAttrs.mtime).isSome = true) ∧
    createTar [⟨[97], some [120], some ⟨none, none, none, some 5000, none, none⟩⟩] ⟨none⟩ 0
      = createTar [⟨[97], some [120], some ⟨none, none, none, some 5000, none, none⟩⟩] ⟨none⟩
          987654321 :=
  ⟨by decide,
    C10_deterministic [⟨[97], some [120], some ⟨none, none, none, some 5000, none, none⟩⟩]
      ⟨none⟩ 0 987654321 (by decide)⟩

/-! ## Claim C8 -/

theorem splitOnByte_of_not_mem {sep : Nat} {xs : Str} (h : sep ∉ xs) :
    splitOnByte sep xs = [xs] := by
  induction xs with
  | nil => rfl
  | cons b t ih =>
    have hb : b ≠ sep := fun hc => h (hc ▸ List.mem_cons_self b t)
    have ht : sep ∉ t := fun hc => h (List.mem_cons_of_mem b hc)
    unfold splitOnByte
    rw [ih ht]
    simp [hb]

theorem splitOnByte_ne_nil (sep : Nat) (l : Str) : splitOnByte sep l ≠ [] := by
  cases l with
  | nil => simp [splitOnByte]
  | cons b t =>
    unfold splitOnByte
    cases splitOnByte sep t with
    | nil => simp
    | cons c o => by_cases hb : b = sep <;> simp [hb]

theorem splitOnByte_append_sep {sep : Nat} {xs : Str} (ys : Str) (h : sep ∉ xs) :
    splitOnByte sep (xs ++ sep :: ys) = xs :: splitOnByte sep ys := by
  induction xs with
  | nil =>
    simp only [List.nil_append]
    obtain ⟨c, o, hco⟩ : ∃ c o, splitOnByte sep ys = c :: o := by
      cases hys : splitOnByte sep ys with
      | nil => exact absurd hys (splitOnByte_ne_nil sep ys)
      | cons c o => exact ⟨c, o, rfl⟩
    conv_lhs => unfold splitOnByte
    rw [hco]
    simp
  | cons b t ih =>
    have hb : b ≠ sep := fun hc => h (hc ▸ List.mem_cons_self b t)
    have ht : sep ∉ t := fun hc => h (List.mem_cons_of_mem b hc)
    simp only [List.cons_append]
    conv_lhs => unfold splitOnByte
    rw [ih ht]
    simp [hb]

/-- C8 (amended): in each newline-separated record of an extended-header
payload, only the text between the first and the second space is consulted:
its part before the first "=" becomes the key and its part between the first
and the second "=" becomes the value; any text of the record after a second
"=" or after a second space is dropped, and the length prefix is not
validated. -/
theorem C8_pax_records :
    (∀ len k v : Str,
      32 ∉ len → 10 ∉ len → 32 ∉ k → 61 ∉ k → 10 ∉ k → 32 ∉ v → 61 ∉ v → 10 ∉ v →
      _parseExtendedHeaders (len ++ [32] ++ k ++ [61] ++ v) = [(k, some v)]) ∧
    (∀ len k v extra : Str,
      32 ∉ len → 10 ∉ len → 32 ∉ k → 61 ∉ k → 10 ∉ k → 32 ∉ v → 61 ∉ v → 10 ∉ v →
      32 ∉ extra → 10 ∉ extra →
      _parseExtendedHeaders (len ++ [32] ++ k ++ [61] ++ v ++ [61] ++ extra)
        = [(k, some v)]) ∧
    (∀ len k v w : Str,
      32 ∉ len → 10 ∉ len → 32 ∉ k → 61 ∉ k → 10 ∉ k → 32 ∉ v → 61 ∉ v → 10 ∉ v →
      10 ∉ w →
      _parseExtendedHeaders (len ++ [32] ++ k ++ [61] ++ v ++ [32] ++ w)
        = [(k, some v)]) := by
  have hmem : ∀ (a : Nat) (x y : Str) (b : Nat), a ∉ x → a ∉ y → a ≠ b →
      a ∉ x ++ b :: y := by
    intro a x y b hx hy hb hc
    rcases List.mem_append.mp hc with h | h
    · exact hx h
    · rcases List.mem_cons.mp h with h | h
      · exact hb h
      · exact hy h
  refine ⟨?_, ?_, ?_⟩
  · intro len k v h1 h2 h3 h4 h5 h6 h7 h8
    have hline : (10 : Nat) ∉ len ++ [32] ++ k ++ [61] ++ v := by
      simp only [List.append_assoc, List.singleton_append]
      exact hmem _ _ _ _ h2 (hmem _ _ _ _ h5 h8 (by omega)) (by omega)
    have htok : (32 : Nat) ∉ k ++ [61] ++ v := by
      simp only [List.append_assoc, List.singleton_append]
      exact hmem _ _ _ _ h3 h6 (by omega)
    unfold _parseExtendedHeaders
    rw [splitOnByte_of_not_mem hline]
    simp only [List.foldl_cons, List.foldl_nil]
    have hsp : splitOnByte 32 (len ++ [32] ++ k ++ [61] ++ v)
        = len :: splitOnByte 32 (k ++ [61] ++ v) := by
      have : len ++ [32] ++ k ++ [61] ++ v = len ++ 32 :: (k ++ [61] ++ v) := by
        simp [List.append_assoc]
      rw [this, splitOnByte_append_sep _ h1]
    rw [hsp, splitOnByte_of_not_mem htok]
    simp only [List.drop_succ_cons, List.drop_zero]
    have heq : splitOnByte 61 (k ++ [61] ++ v) = k :: [v] := by
      have : k ++ [61] ++ v = k ++ 61 :: v := by simp [List.append_assoc]
      rw [this, splitOnByte_append_sep _ h4, splitOnByte_of_not_mem h7]
    rw [heq]
    rfl
  · intro len k v extra h1 h2 h3 h4 h5 h6 h7 h8 h9 h10
    have hline : (10 : Nat) ∉ len ++ [32] ++ k ++ [61] ++ v ++ [61] ++ extra := by
      simp only [List.append_assoc, List.singleton_append]
      exact hmem _ _ _ _ h2
        (hmem _ _ _ _ h5 (hmem _ _ _ _ h8 h10 (by omega)) (by omega)) (by omega)
    have htok : (32 : Nat) ∉ k ++ [61] ++ v ++ [61] ++ extra := by
      simp only [List.append_assoc, List.singleton_append]
      exact hmem _ _ _ _ h3 (hmem _ _ _ _ h6 h9 (by omega)) (by omega)
    unfold _parseExtendedHeaders
    rw [splitOnByte_of_not_mem hline]
    simp only [List.foldl_cons, List.foldl_nil]
    have hsp : splitOnByte 32 (len ++ [32] ++ k ++ [61] ++ v ++ [61] ++ extra)
        = len :: splitOnByte 32 (k ++ [61] ++ v ++ [61] ++ extra) := by
      have : len ++ [32] ++ k ++ [61] ++ v ++ [61] ++ extra
          = len ++ 32 :: (k ++ [61] ++ v ++ [61] ++ extra) := by
        simp [List.append_assoc]
      rw [this, splitOnByte_append_sep _ h1]
    rw [hsp, splitOnByte_of_not_mem htok]
    simp only [List.drop_succ_cons, List.drop_zero]
    have heq : splitOnByte 61 (k ++ [61] ++ v ++ [61] ++ extra)
        = k :: v :: splitOnByte 61 extra := by
      have : k ++ [61] ++ v ++ [61] ++ extra = k ++ 61 :: (v ++ 61 :: extra) := by
        simp [List.append_assoc]
      rw [this, splitOnByte_append_sep _ h4, splitOnByte_append_sep _ h7]
    rw [heq]
    rfl
  · intro len k v w h1 h2 h3 h4 h5 h6 h7 h8 h9
    have hline : (10 : Nat) ∉ len ++ [32] ++ k ++ [61] ++ v ++ [32] ++ w := by
      simp only [List.append_assoc, List.singleton_append]
      exact hmem _ _ _ _ h2
        (hmem _ _ _ _ h5 (hmem _ _ _ _ h8 h9 (by omega)) (by omega)) (by omega)
    have htok : (32 : Nat) ∉ k ++ [61] ++ v := by
      simp only [List.append_assoc, List.singleton_append]
      exact hmem _ _ _ _ h3 h6 (by omega)
    unfold _parseExtendedHeaders
    rw [splitOnByte_of_not_mem hline]
    simp only [List.foldl_cons, List.foldl_nil]
    have hsp : splitOnByte 32 (len ++ [32] ++ k ++ [61] ++ v ++ [32] ++ w)
        = len :: (k ++ [61] ++ v) :: splitOnByte 32 w := by
      have : len ++ [32] ++ k ++ [61] ++ v ++ [32] ++ w
          = len ++ 32 :: ((k ++ [61] ++ v) ++ 32 :: w) := by
        simp [List.append_assoc]
      rw [this, splitOnByte_append_sep _ h1, splitOnByte_append_sep _ htok]
    rw [hsp]
    simp only [List.drop_succ_cons, List.drop_zero]
    have heq : splitOnByte 61 (k ++ [61] ++ v) = k :: [v] := by
      have : k ++ [61] ++ v = k ++ 61 :: v := by simp [List.append_assoc]
      rw [this, splitOnByte_append_sep _ h4, splitOnByte_of_not_mem h7]
    rw [heq]
    rfl

/-- C8 counterexample: a record whose value part contains a space keeps only
the text before the space, and a record whose value contains a second "="
keeps only the text before it: the stored value is not the full text after
the first "=". -/
theorem C8_counterexample :
    _parseExtendedHeaders (ascii "9 a=b c") = [(ascii "a", some (ascii "b"))] ∧
    ascii "b" ≠ ascii "b c" ∧
    _parseExtendedHeaders (ascii "8 k=a=b") = [(ascii "k", some (ascii "a"))] ∧
    ascii "a" ≠ ascii "a=b" := by
  refine ⟨by decide, by decide, by decide, by decide⟩

/-- Witness for C8: a concrete record parses to its key and value. -/
theorem C8_pax_records_witness :
    _parseExtendedHeaders (ascii "9" ++ [32] ++ ascii "path" ++ [61] ++ ascii "x")
      = [(ascii "path", some (ascii "x"))] :=
  C8_pax_records.1 (ascii "9") (ascii "path") (ascii "x") (by decide) (by decide) (by decide)
    (by decide) (by decide) (by decide) (by decide) (by decide)

/-! ## Claim C4 -/

theorem sum_le_of_all_le {l : Str} {c : Nat} (h : ∀ b ∈ l, b ≤ c) :
    l.sum ≤ c * l.length := by
  induction l with
  | nil => simp
  | cons b t ih =>
    simp only [List.sum_cons, List.length_cons]
    have hb := h b (List.mem_cons_self b t)
    have ht := ih fun x hx => h x (List.mem_cons_of_mem b hx)
    calc b + t.sum ≤ c + c * t.length := by omega
    _ = c * (t.length + 1) := by ring

theorem mem_fieldFit_le {w : Nat} {s : Str} {c : Nat} (hs : ∀ b ∈ s, b ≤ c) :
    ∀ b ∈ fieldFit w s, b ≤ c := by
  intro b hb
  rcases List.mem_append.mp hb with h | h
  · exact hs b (List.mem_of_mem_take h)
  · have := List.eq_of_mem_replicate h
    omega

theorem leftPad_le {s : Str} {w c : Nat} (hc : 48 ≤ c) (hs : ∀ b ∈ s, b ≤ c) :
    ∀ b ∈ _leftPad s w, b ≤ c := by
  intro b hb
  rcases List.mem_append.mp hb with h | h
  · have := List.eq_of_mem_replicate h
    omega
  · exact hs b h

theorem octField_le {n w : Nat} : ∀ b ∈ octField n w, b ≤ 255 := by
  apply leftPad_le (by omega)
  intro b hb
  have := natToOctal_digits b hb
  omega

/-- Every byte of the pre-checksum header image is at most 255, given that
the strings supplied by the caller are byte strings. -/
theorem headerImage_le (name : Str) (isDir : Bool) (size : Nat)
    (fattrs : Option CreateAttrs) (opts2 : CreateOpts) (now : Nat)
    (hb1 : ∀ b ∈ name, b < 256)
    (hb2 : ∀ b ∈ modeOf fattrs opts2 isDir, b < 256)
    (hb3 : ∀ b ∈ userOf fattrs opts2, b < 256)
    (hb4 : ∀ b ∈ groupOf fattrs opts2, b < 256) :
    ∀ b ∈ hdrHead name (_leftPad (modeOf fattrs opts2 isDir) 7)
        (octField (uidOf fattrs opts2) 7) (octField (gidOf fattrs opts2) 7)
        (octField size 11) (octField (mtimeOf fattrs opts2 now / 1000) 11)
      ++ spaces8
      ++ hdrTail (if isDir then [53] else [48]) (userOf fattrs opts2) (groupOf fattrs opts2),
      b ≤ 255 := by
  intro b hb
  have h48 : (48 : Nat) ≤ 255 := by omega
  simp only [hdrHead, hdrTail, spaces8, List.append_assoc, List.mem_append] at hb
  rcases hb with h | h | h | h | h | h | h | h | h | h | h | h | h | h
  · exact mem_fieldFit_le (fun x hx => by have := hb1 x hx; omega) b h
  · exact mem_fieldFit_le (leftPad_le h48 fun x hx => by have := hb2 x hx; omega) b h
  · exact mem_fieldFit_le octField_le b h
  · exact mem_fieldFit_le octField_le b h
  · exact mem_fieldFit_le octField_le b h
  · exact mem_fieldFit_le octField_le b h
  · have := List.eq_of_mem_replicate h
    omega
  · refine mem_fieldFit_le ?_ b h
    rcases isDir with _ | _ <;> simp
  · have := List.eq_of_mem_replicate h
    omega
  · exact mem_fieldFit_le (by decide) b h
  · exact mem_fieldFit_le (by decide) b h
  · exact mem_fieldFit_le (fun x hx => by have := hb3 x hx; omega) b h
  · exact mem_fieldFit_le (fun x hx => by have := hb4 x hx; omega) b h
  · have := List.eq_of_mem_replicate h
    omega

/-- C4: for every header written by createTar, reading the 8-byte checksum
field at offset 148 back as an octal number yields exactly the byte sum of
the 512-byte header with the checksum field blanked to eight ASCII spaces;
and the header of each entry block is the first 512 bytes that createTar lays
down for the entry. -/
theorem C4_checksum (name : Str) (isDir : Bool) (size : Nat)
    (fattrs : Option CreateAttrs) (opts2 : CreateOpts) (now : Nat)
    (hb1 : ∀ b ∈ name, b < 256)
    (hb2 : ∀ b ∈ modeOf fattrs opts2 isDir, b < 256)
    (hb3 : ∀ b ∈ userOf fattrs opts2, b < 256)
    (hb4 : ∀ b ∈ groupOf fattrs opts2, b < 256) :
    _readNumber (makeHeader name isDir size fattrs opts2 now) 148 8
      = some ((blankChecksum (makeHeader name isDir size fattrs opts2 now)).sum) ∧
    ∀ f : InFile, (entryBlock f opts2 now).take 512
      = makeHeader f.name f.data.isNone (fsize f) f.attrs opts2 now := by
  constructor
  · set hh := hdrHead name (_leftPad (modeOf fattrs opts2 isDir) 7)
      (octField (uidOf fattrs opts2) 7) (octField (gidOf fattrs opts2) 7)
      (octField size 11) (octField (mtimeOf fattrs opts2 now / 1000) 11) with hhh
    set ht := hdrTail (if isDir then [53] else [48]) (userOf fattrs opts2)
      (groupOf fattrs opts2) with hht
    have hmk : makeHeader name isDir size fattrs opts2 now
        = hh ++ fieldFit 8 (natToOctal (hh ++ spaces8 ++ ht).sum) ++ ht := rfl
    have hchk : (hh ++ spaces8 ++ ht).sum ≤ 130560 := by
      have hlen : (hh ++ spaces8 ++ ht).length = 512 := by
        rw [hhh, hht]
        simp only [List.length_append, length_hdrHead, length_hdrTail, length_spaces8]
      have := sum_le_of_all_le (headerImage_le name isDir size fattrs opts2 now hb1 hb2 hb3 hb4)
      rw [← hhh, ← hht, hlen] at this
      omega
    have h86 : (130560 : Nat) < 8 ^ 6 := by norm_num
    have hlenoct : (natToOctal (hh ++ spaces8 ++ ht).sum).length ≤ 6 :=
      natToOctal_length_le (by omega) (by omega)
    have h148 : hh.length = 148 := by
      rw [hhh]
      exact length_hdrHead ..
    have h156 : (hh ++ fieldFit 8 (natToOctal (hh ++ spaces8 ++ ht).sum)).length = 156 := by
      simp only [List.length_append, length_fieldFit, h148]
    have htake : (hh ++ fieldFit 8 (natToOctal (hh ++ spaces8 ++ ht).sum) ++ ht).take 148
        = hh := by
      rw [List.append_assoc]
      exact List.take_left' h148
    have hdrop : (hh ++ fieldFit 8 (natToOctal (hh ++ spaces8 ++ ht).sum) ++ ht).drop 156
        = ht := List.drop_left' h156
    have hblank : blankChecksum (makeHeader name isDir size fattrs opts2 now)
        = hh ++ spaces8 ++ ht := by
      unfold blankChecksum
      rw [hmk, htake, hdrop]
    rw [hblank, hmk]
    unfold _readNumber
    rw [readRaw_mid ht h148 (by simp)]
    rw [fieldFit_of_le (by omega)]
    have := parseIntOct_padded 0 ((hh ++ spaces8 ++ ht).sum)
      (8 - (natToOctal (hh ++ spaces8 ++ ht).sum).length)
    simpa using this
  · intro f
    rw [entryBlock, List.take_left']
    exact length_makeHeader ..

/-- Witness for C4: the checksum equation at a concrete small header, and
the header slice of a concrete entry block. -/
theorem C4_checksum_witness :
    _readNumber (makeHeader (ascii "w") false 3 none ⟨none⟩ 0) 148 8
      = some ((blankChecksum (makeHeader (ascii "w") false 3 none ⟨none⟩ 0)).sum) ∧
    (entryBlock cexDir ⟨none⟩ 0).take 512
      = makeHeader cexDir.name cexDir.data.isNone (fsize cexDir) cexDir.attrs ⟨none⟩ 0 :=
  ⟨(C4_checksum (ascii "w") false 3 none ⟨none⟩ 0 (by decide) (by decide) (by decide)
      (by decide)).1,
    (C4_checksum (ascii "w") false 3 none ⟨none⟩ 0 (by decide) (by decide) (by decide)
      (by decide)).2 cexDir⟩

end Nanotar
